import Mathlib

/-!
# proxychecker: the probing engine of `checker.go`

A shallow embedding of the Go program `checker.go` and the properties of its
probe classifier (`checkProxy`), its coordinator (`testProxies`), the proxy
store (`saveProxies` / `loadProxies`) and the two string normalisers
(`formatURL`, `proxyURLFromString`).

Conventions of the embedding.

* A Go `string` is a list of Unicode code points (`GoString`). The functions of
  package `strings` that the program calls are defined on such lists.
* Library calls whose result is decided outside the program (the URL parser,
  the request constructor, the HTTP round trip, the terminal colouring of
  `fatih/color`) are fields of a `World` value; theorems hold for every world.
* `checkProxy` returns, next to its two Go results, the list of network effects
  it performed, so that "no network call" is a statement about that list.
* A `float64` is the rational number it denotes; a `float64` operation is the
  exact operation followed by rounding to nearest, ties to even (`f64Round`).
* The goroutines of `testProxies` are a transition system: one actor per proxy
  task, the closer goroutine and the calling goroutine. A schedule is the list
  of actors in the order they move; a send on a full channel and a receive on
  an empty open channel are not enabled.
-/

namespace ProxyChecker

/-! ## Strings -/

/-- A Go string, as the list of its code points. -/
abbrev GoString := List Char

/-- Go `strings.HasPrefix s pre`. -/
def hasPrefix : GoString → GoString → Bool
  | _, [] => true
  | [], _ :: _ => false
  | c :: s, d :: pre => c == d && hasPrefix s pre

/-- Go `strings.Contains s substr`: `substr` occurs at some offset of `s`. -/
def contains : GoString → GoString → Bool
  | [], sub => hasPrefix [] sub
  | c :: s, sub => hasPrefix (c :: s) sub || contains s sub

/-- Go `strings.TrimPrefix s pre`. -/
def trimPrefix (s pre : GoString) : GoString :=
  if hasPrefix s pre then s.drop pre.length else s

/-- Go `unicode.IsSpace`: the code points with the White_Space property. -/
def isSpace (c : Char) : Bool :=
  let n := c.toNat
  n == 0x09 || n == 0x0A || n == 0x0B || n == 0x0C || n == 0x0D || n == 0x20 ||
  n == 0x85 || n == 0xA0 || n == 0x1680 || (0x2000 ≤ n && n ≤ 0x200A) ||
  n == 0x2028 || n == 0x2029 || n == 0x202F || n == 0x205F || n == 0x3000

/-- Go `strings.TrimSpace`: leading and trailing white space removed. -/
def trimSpace (s : GoString) : GoString :=
  ((s.dropWhile isSpace).reverse.dropWhile isSpace).reverse

/-- Go `fmt.Sprintf("%d", n)` for an integer. -/
def fmtD (n : Int) : GoString :=
  if n < 0 then '-' :: Nat.toDigits 10 n.natAbs else Nat.toDigits 10 n.natAbs

/-! ## Configuration and the outside world -/

/-- The `Config` struct of the program. -/
structure Config where
  MaxWorkers : Int
  Timeout : Int
  DefaultURL : GoString
  Mode : GoString

/-- What `client.Do(req)` returns together with the measured duration in
milliseconds: a transport error with its text, or a response with its status
code. -/
inductive Transport where
  | failure (errText : GoString) (ms : Int)
  | response (statusCode : Int) (ms : Int)

/-- The parts of a run that are decided outside the program. -/
structure World where
  /-- `color.RedString`: the red wrapping of a text. -/
  redString : GoString → GoString
  /-- `color.GreenString`. -/
  greenString : GoString → GoString
  /-- `color.YellowString`. -/
  yellowString : GoString → GoString
  /-- Whether `url.Parse` accepts a string. -/
  urlParse : GoString → Bool
  /-- Whether `http.NewRequest("GET", url, nil)` succeeds. -/
  newRequest : GoString → Bool
  /-- The outcome of the HTTP round trip of trial `i` of task `k`. -/
  roundTrip : Nat → Nat → Transport
  /-- Whether `os.Create("proxies.txt")` succeeds. -/
  createFile : Bool
  /-- The line typed at the URL prompt. -/
  stdinLine : GoString
  /-- The global `config`. -/
  config : Config

/-- The world in which colours are switched off (`color.NoColor`): the three
colour functions return their argument. -/
def World.plain (w : World) : World :=
  { w with redString := id, greenString := id, yellowString := id }

/-! ## `proxyURLFromString` and `formatURL` -/

/-- The string `proxyURLFromString` hands to `url.Parse`. -/
def normalizeProxy (proxy : GoString) : GoString :=
  let proxy := trimSpace proxy
  if !hasPrefix proxy "http://".toList && !hasPrefix proxy "https://".toList then
    "http://".toList ++ proxy
  else proxy

/-- `proxyURLFromString`: `some u` is the parsed URL (represented by the string
that was parsed), `none` is the parser's error. -/
def proxyURLFromString (w : World) (proxy : GoString) : Option GoString :=
  if w.urlParse (normalizeProxy proxy) then some (normalizeProxy proxy) else none

/-- `formatURL`, with the global `config.Mode` as first argument. -/
def formatURL (mode : GoString) (url : GoString) : GoString :=
  if mode = "HTTP".toList then
    if !hasPrefix url "http://".toList then
      "http://www.".toList ++ trimPrefix url "www.".toList
    else url
  else
    if !hasPrefix url "https://".toList then
      "https://www.".toList ++ trimPrefix url "www.".toList
    else url

/-! ## `checkProxy` -/

/-- The effects of `checkProxy` on the network stack. -/
inductive NetEffect where
  | buildClient
  | createRequest
  | doRequest
  deriving DecidableEq, Repr

/-- The `switch` of `checkProxy` over the text of the transport error. -/
def classifyError (errText : GoString) : GoString :=
  if contains errText "context deadline exceeded".toList then "Timed out".toList
  else if contains errText "connection refused".toList then "Connection refused".toList
  else if contains errText "no such host".toList then "Host not found".toList
  else if contains errText "EOF".toList then "Connection closed unexpectedly".toList
  else if contains errText "malformed HTTP response".toList then
    "Invalid response from proxy".toList
  else if contains errText "i/o timeout".toList then "Connection timed out".toList
  else "Unknown error".toList

/-- The result of `checkProxy`: the two Go results and the network effects. -/
structure ProbeResult where
  success : Bool
  message : GoString
  effects : List NetEffect

/-- `checkProxy proxy url timeout`; `t` is what the round trip yields if it is
issued. The timeout only configures the client and is part of `t`. -/
def checkProxy (w : World) (t : Transport) (proxy url : GoString) : ProbeResult :=
  match proxyURLFromString w proxy with
  | none =>
    ⟨false, w.redString "Error: ".toList ++ proxy ++ " - Invalid proxy format".toList, []⟩
  | some _ =>
    if !w.newRequest url then
      ⟨false, w.redString "Error: ".toList ++ proxy ++ " - Failed to create request".toList,
        [.buildClient, .createRequest]⟩
    else
      match t with
      | .failure errText ms =>
        ⟨false, w.redString "Error: ".toList ++ proxy ++ " - ".toList ++ classifyError errText
          ++ " (".toList ++ fmtD ms ++ " ms)".toList,
          [.buildClient, .createRequest, .doRequest]⟩
      | .response statusCode ms =>
        if statusCode = 200 then
          ⟨true, w.greenString "Success: ".toList ++ proxy ++ " is working (".toList ++ fmtD ms
            ++ " ms)".toList, [.buildClient, .createRequest, .doRequest]⟩
        else
          ⟨false, w.yellowString "Warning: ".toList ++ proxy
            ++ " - Unexpected status code ".toList ++ fmtD statusCode ++ " (".toList ++ fmtD ms
            ++ " ms)".toList, [.buildClient, .createRequest, .doRequest]⟩

/-! ## The proxy store: `saveProxies` and the line reader of `loadProxies` -/

/-- The bytes `saveProxies` writes to `proxies.txt` once the file is created:
`fmt.Fprintln(file, proxy)` for every proxy in order. -/
def saveProxiesContent : List GoString → GoString
  | [] => []
  | p :: ps => p ++ '\n' :: saveProxiesContent ps

/-- `saveProxies`: `none` when `os.Create` fails (nothing is written), else the
new content of the file. -/
def saveProxies (createFile : Bool) (proxies : List GoString) : Option GoString :=
  if createFile then some (saveProxiesContent proxies) else none

/-- Program points of a proxy task (the goroutine started per proxy). -/
inductive TaskPc where
  /-- In the trial loop, or at the `if successCount == 3` after it. -/
  | running
  /-- After `workingProxies <- proxy`, before the pass line is sent. -/
  | sentWorking
  /-- Returned; the deferred `wg.Done()` has run. -/
  | finished
  deriving DecidableEq, Repr

/-- The local variables of a proxy task. -/
structure Task where
  proxy : GoString
  i : Nat
  successCount : Nat
  pc : TaskPc
  deriving DecidableEq, Repr

/-- Program points of the goroutine that waits and closes the channels. -/
inductive CloserPc where
  | notStarted
  | waiting
  | closedResults
  | exited
  deriving DecidableEq, Repr

/-- Program points of the calling goroutine inside `testProxies`. -/
inductive MainPc where
  | spawning
  | drainResults
  | drainWorking
  | returned
  deriving DecidableEq, Repr

/-- Rounding of a rational to the nearest integer, ties to the even integer. -/
def roundHalfEven (x : ℚ) : ℤ :=
  if x - Int.floor x < 1 / 2 then Int.floor x
  else if 1 / 2 < x - Int.floor x then Int.floor x + 1
  else if Int.floor x % 2 = 0 then Int.floor x else Int.floor x + 1

/-- The unit in the last place of the 53-bit significand of a positive
rational `q`: `2 ^ (e - 52)` for the `e` with `2 ^ e ≤ q < 2 ^ (e + 1)`. -/
def f64Ulp (q : ℚ) : ℚ := 2 ^ (Int.log 2 q - 52)

/-- The `float64` nearest to a rational, as the rational it denotes: round to
nearest with 53 significant bits, ties to even. Overflow and subnormal numbers
are not represented; the values of a summary (integers below `2 ^ 63`, their
quotient and its product with 100) lie in the normal range. -/
def f64Round (q : ℚ) : ℚ :=
  if q = 0 then 0
  else if 0 < q then roundHalfEven (q / f64Ulp q) * f64Ulp q
  else -(roundHalfEven (-q / f64Ulp (-q)) * f64Ulp (-q))

/-- Go `float64(n)` for an integer `n`. -/
def f64OfInt (n : Int) : ℚ := f64Round n

/-- Go `x / y` on `float64` values, for a divisor that is not zero. -/
def f64Div (x y : ℚ) : ℚ := f64Round (x / y)

/-- Go `x * y` on `float64` values. -/
def f64Mul (x y : ℚ) : ℚ := f64Round (x * y)

/-- The summary numbers of a run. The rate is the `float64` value the program
computes, given as the rational number it denotes. -/
structure Summary where
  totalTested : Nat
  totalWorking : Nat
  successRate : ℚ
  deriving DecidableEq

/-- The rate of the summary:
`float64(totalWorking) / float64(totalTested) * 100`. -/
def successRateOf (totalWorking totalTested : Nat) : ℚ :=
  f64Mul (f64Div (f64OfInt totalWorking) (f64OfInt totalTested)) 100

/-- The state of a run of `testProxies` on a non-empty list. Every message in
a channel carries the index of the task that sent it; the index is not part of
the Go value and is only used to state where a line comes from. -/
structure State where
  proxies : List GoString
  url : GoString
  main : MainPc
  tasks : List Task
  closer : CloserPc
  resultChan : List (Nat × GoString)
  workingChan : List (Nat × GoString)
  results : List (Nat × GoString)
  working : List (Nat × GoString)
  summary : Option Summary
  saved : Option GoString

/-- The goroutines of a run. -/
inductive Actor where
  | main
  | task (k : Nat)
  | closer
  deriving DecidableEq, Repr

/-- Capacity of `resultChan`: `len(proxies)*3`. -/
def State.resultCap (s : State) : Nat := s.proxies.length * 3

/-- Capacity of `workingProxies`: `len(proxies)`. -/
def State.workingCap (s : State) : Nat := s.proxies.length

/-- Whether `resultChan` has been closed. -/
def State.resultClosed (s : State) : Bool :=
  s.closer = .closedResults || s.closer = .exited

/-- Whether `workingProxies` has been closed. -/
def State.workingClosed (s : State) : Bool := s.closer = .exited

/-- The URL the proxies are tested against: the trimmed prompt answer, or the
default when it is empty, passed through `formatURL`. -/
def targetURL (w : World) : GoString :=
  let url := trimSpace w.stdinLine
  formatURL w.config.Mode (if url = [] then w.config.DefaultURL else url)

/-- The state when the calling goroutine reaches the spawn loop. -/
def initState (w : World) (proxies : List GoString) : State :=
  { proxies := proxies, url := targetURL w, main := .spawning, tasks := [],
    closer := .notStarted, resultChan := [], workingChan := [], results := [],
    working := [], summary := none, saved := none }

/-- The result line of a trial: `fmt.Sprintf("Test %d: %s", i+1, result)`. -/
def testLine (i : Nat) (result : GoString) : GoString :=
  "Test ".toList ++ fmtD (i + 1 : Nat) ++ ": ".toList ++ result

/-- The pass line: `color.GreenString("✓ %s passed all 3 tests", proxy)`. -/
def passLine (w : World) (proxy : GoString) : GoString :=
  w.greenString ("✓ ".toList ++ proxy ++ " passed all 3 tests".toList)

/-- The fail line:
`color.RedString("✗ %s failed (%d/3 successful)", proxy, successCount)`. -/
def failLine (w : World) (proxy : GoString) (successCount : Nat) : GoString :=
  w.redString ("✗ ".toList ++ proxy ++ " failed (".toList ++ fmtD (successCount : Nat)
    ++ "/3 successful)".toList)

/-- One move of proxy task `k`; `none` when the task does not exist, has
returned, or is blocked on a full channel. -/
def stepTask (w : World) (k : Nat) (s : State) : Option State :=
  match s.tasks[k]? with
  | none => none
  | some t =>
    match t.pc with
    | .finished => none
    | .running =>
      if t.i < 3 then
        if s.resultChan.length < s.resultCap then
          let r := checkProxy w (w.roundTrip k t.i) t.proxy s.url
          some { s with
            tasks := s.tasks.set k { t with
              i := t.i + 1,
              successCount := if r.success then t.successCount + 1 else t.successCount },
            resultChan := s.resultChan ++ [(k, testLine t.i r.message)] }
        else none
      else if t.successCount = 3 then
        if s.workingChan.length < s.workingCap then
          some { s with
            tasks := s.tasks.set k { t with pc := .sentWorking },
            workingChan := s.workingChan ++ [(k, t.proxy)] }
        else none
      else
        if s.resultChan.length < s.resultCap then
          some { s with
            tasks := s.tasks.set k { t with pc := .finished },
            resultChan := s.resultChan ++ [(k, failLine w t.proxy t.successCount)] }
        else none
    | .sentWorking =>
      if s.resultChan.length < s.resultCap then
        some { s with
          tasks := s.tasks.set k { t with pc := .finished },
          resultChan := s.resultChan ++ [(k, passLine w t.proxy)] }
      else none

/-- One move of the closer goroutine: `wg.Wait()` returns once every task has
finished, then the two channels are closed one after the other. -/
def stepCloser (s : State) : Option State :=
  match s.closer with
  | .notStarted => none
  | .waiting =>
    if s.tasks.all (fun t => t.pc = .finished) then some { s with closer := .closedResults }
    else none
  | .closedResults => some { s with closer := .exited }
  | .exited => none

/-- One move of the calling goroutine: start the next task (and, after the
last one, the closer), receive from `resultChan`, receive from
`workingProxies`, and finally compute the summary, save and return. -/
def stepMain (w : World) (s : State) : Option State :=
  match s.main with
  | .spawning =>
    match s.proxies[s.tasks.length]? with
    | some proxy => some { s with tasks := s.tasks ++ [⟨proxy, 0, 0, .running⟩] }
    | none => some { s with closer := .waiting, main := .drainResults }
  | .drainResults =>
    match s.resultChan with
    | m :: rest => some { s with resultChan := rest, results := s.results ++ [m] }
    | [] => if s.resultClosed then some { s with main := .drainWorking } else none
  | .drainWorking =>
    match s.workingChan with
    | m :: rest => some { s with workingChan := rest, working := s.working ++ [m] }
    | [] =>
      if s.workingClosed then
        some { s with
          main := .returned,
          summary := some
            { totalTested := s.proxies.length,
              totalWorking := s.working.length,
              successRate := successRateOf s.working.length s.proxies.length },
          saved := saveProxies w.createFile (s.working.map Prod.snd) }
      else none
  | .returned => none

/-- One move of the given actor. -/
def step (w : World) (a : Actor) (s : State) : Option State :=
  match a with
  | .main => stepMain w s
  | .task k => stepTask w k s
  | .closer => stepCloser s

/-- The state after the actors of a schedule have moved in order; `none` when
the schedule asks a blocked or finished actor to move. -/
def exec (w : World) : List Actor → State → Option State
  | [], s => some s
  | a :: sched, s => (step w a s).bind (exec w sched)

/-- What a call of `testProxies` leaves behind. -/
structure RunResult where
  /-- The returned slice; `none` is Go's `nil`. -/
  ret : Option (List GoString)
  /-- The lines received from `resultChan` (and printed), each with the index
  of the task that sent it. -/
  stream : List (Nat × GoString)
  /-- The summary, when one was computed. -/
  summary : Option Summary
  /-- The content written by `saveProxies`, when it was called and could
  create the file. -/
  saved : Option GoString
  /-- The number of proxy tasks started. -/
  spawned : Nat
  /-- The error line printed instead of a run. -/
  errorLine : Option GoString
  deriving DecidableEq

/-- `testProxies proxies` under a schedule of its goroutines: `some r` when the
call returns under that schedule. -/
def testProxies (w : World) (proxies : List GoString) (sched : List Actor) :
    Option RunResult :=
  if proxies.length = 0 then
    some { ret := none, stream := [], summary := none, saved := none, spawned := 0,
           errorLine := some (w.redString "Error: No proxies found.".toList) }
  else
    match exec w sched (initState w proxies) with
    | none => none
    | some s =>
      if s.main = .returned then
        some { ret := some (s.working.map Prod.snd), stream := s.results,
               summary := s.summary, saved := s.saved, spawned := s.tasks.length,
               errorLine := none }
      else none

/-! ## Specification-level notions -/

/-- The probe result of trial `i` (from 0) of the task at index `k`. -/
def trial (w : World) (proxies : List GoString) (k i : Nat) : ProbeResult :=
  checkProxy w (w.roundTrip k i) (proxies.getD k []) (targetURL w)

/-- The number of successful trials among the first `n` trials of task `k`. -/
def successesUpTo (w : World) (proxies : List GoString) (k : Nat) : Nat → Nat
  | 0 => 0
  | n + 1 => successesUpTo w proxies k n + if (trial w proxies k n).success then 1 else 0

/-- The `successCount` of task `k` after its three trials. -/
def successCount (w : World) (proxies : List GoString) (k : Nat) : Nat :=
  successesUpTo w proxies k 3

/-- The verdict line of task `k`. -/
def verdictLine (w : World) (proxies : List GoString) (k : Nat) : GoString :=
  if successCount w proxies k = 3 then passLine w (proxies.getD k [])
  else failLine w (proxies.getD k []) (successCount w proxies k)

/-- The four lines task `k` sends, in the order of the program text. -/
def taskLines (w : World) (proxies : List GoString) (k : Nat) : List GoString :=
  [testLine 0 (trial w proxies k 0).message, testLine 1 (trial w proxies k 1).message,
   testLine 2 (trial w proxies k 2).message, verdictLine w proxies k]

/-- The lines of a tagged stream that were sent by task `k`, in stream order. -/
def linesOf (k : Nat) (stream : List (Nat × GoString)) : List GoString :=
  (stream.filter (fun m => m.1 = k)).map Prod.snd

/-- The sub-list of the input proxies whose three trials all succeeded, in
input order. -/
def allPassed (w : World) (proxies : List GoString) : List GoString :=
  ((List.range proxies.length).filter (fun k => successCount w proxies k = 3)).map
    (fun k => proxies.getD k [])

/-- A world for examples: colours off, a URL parser that rejects control
characters, and a network in which the proxy at index 0 always answers 200
and every other round trip is refused. -/
def demoWorld : World :=
  { redString := id, greenString := id, yellowString := id,
    urlParse := fun u => !u.any (fun c => c.toNat < 0x20 || c.toNat = 0x7F),
    newRequest := fun _ => true,
    roundTrip := fun k _ =>
      if k = 0 then .response 200 12
      else .failure "proxyconnect tcp: dial tcp 127.0.0.1:9: connect: connection refused".toList 3,
    createFile := true,
    stdinLine := "\n".toList,
    config := { MaxWorkers := 10, Timeout := 10, DefaultURL := "example.com".toList,
                Mode := "HTTP".toList } }

/-- The error text of a round trip through the proxy `EOF.example.com:8080`
whose DNS lookup times out. -/
def dnsTimeoutText : GoString :=
  ("proxyconnect tcp: dial tcp: lookup EOF.example.com on 10.0.0.2:53: " ++
    "read udp 10.0.0.5:41234->10.0.0.2:53: i/o timeout").toList

/-- A world in which every proxy string parses and exactly the proxies at the
positions 0 to 22 answer 200 in every trial. -/
def rateWorld : World :=
  { demoWorld with
    urlParse := fun _ => true,
    roundTrip := fun k _ =>
      if k < 23 then .response 200 12
      else .failure "proxyconnect tcp: dial tcp 10.0.0.9:8080: connect: connection refused".toList 3 }

/-- A list of 160 proxies, `10.0.0.0:8080` to `10.0.0.159:8080`. -/
def rateProxies : List GoString :=
  (List.range 160).map (fun k => "10.0.0.".toList ++ Nat.toDigits 10 k ++ ":8080".toList)

/-- A character that may follow the first letter of a URL scheme. -/
def isSchemeChar (c : Char) : Bool :=
  let n := c.toNat
  (0x41 ≤ n && n ≤ 0x5A) || (0x61 ≤ n && n ≤ 0x7A) || (0x30 ≤ n && n ≤ 0x39) ||
  n == 0x2B || n == 0x2D || n == 0x2E

/-- The spec's "scheme prefix" of a proxy string, read as in URL syntax: a
letter, then letters, digits, `+`, `-` or `.`, then `://`. -/
def carriesScheme (s : GoString) : Bool :=
  match s with
  | [] => false
  | c :: rest =>
    ((0x41 ≤ c.toNat && c.toNat ≤ 0x5A) || (0x61 ≤ c.toNat && c.toNat ≤ 0x7A)) &&
      hasPrefix (rest.dropWhile isSchemeChar) "://".toList

/-- A schedule for two proxies under which `testProxies` returns. -/
def demoSchedule : List Actor :=
  [.main, .main, .main, .task 1, .task 0, .task 1, .task 0, .task 1, .task 0, .main, .task 0,
   .task 1, .main, .main, .task 0, .main, .main, .main, .main, .closer, .main, .main, .closer,
   .main, .main]

/-- The substring table of the failure taxonomy, in the order of the spec. -/
def errorTable : List (GoString × GoString) :=
  [("context deadline exceeded".toList, "Timed out".toList),
   ("connection refused".toList, "Connection refused".toList),
   ("no such host".toList, "Host not found".toList),
   ("EOF".toList, "Connection closed unexpectedly".toList),
   ("malformed HTTP response".toList, "Invalid response from proxy".toList),
   ("i/o timeout".toList, "Connection timed out".toList)]

/-- The description the spec assigns to an error text: that of the first table
entry whose substring occurs in the text, `Unknown error` when there is none. -/
def describeError (errText : GoString) : GoString :=
  match errorTable.find? (fun e => contains errText e.1) with
  | some e => e.2
  | none => "Unknown error".toList

/-- A string without white space at either end. -/
def Trimmed (s : GoString) : Prop :=
  (∀ c, s.head? = some c → isSpace c = false) ∧ (∀ c, s.getLast? = some c → isSpace c = false)

/-- The scheme prefix of a mode of `formatURL`. -/
def modeScheme (mode : GoString) : GoString :=
  if mode = "HTTP".toList then "http://".toList else "https://".toList

/-! ## Invariant and termination measure of the transition system -/

/-- The local moves of proxy task `k`: old and new local state, the message
sent on `resultChan` and the message sent on `workingProxies`. -/
inductive TaskMove (w : World) (url : GoString) (k : Nat) :
    Task → Task → List (Nat × GoString) → List (Nat × GoString) → Prop where
  | trial (t : Task) (hpc : t.pc = .running) (hi : t.i < 3) :
    TaskMove w url k t
      { t with
        i := t.i + 1,
        successCount :=
          if (checkProxy w (w.roundTrip k t.i) t.proxy url).success then t.successCount + 1
          else t.successCount }
      [(k, testLine t.i (checkProxy w (w.roundTrip k t.i) t.proxy url).message)] []
  | working (t : Task) (hpc : t.pc = .running) (hi : ¬ t.i < 3) (hsc : t.successCount = 3) :
    TaskMove w url k t { t with pc := .sentWorking } [] [(k, t.proxy)]
  | fail (t : Task) (hpc : t.pc = .running) (hi : ¬ t.i < 3) (hsc : ¬ t.successCount = 3) :
    TaskMove w url k t { t with pc := .finished } [(k, failLine w t.proxy t.successCount)] []
  | pass (t : Task) (hpc : t.pc = .sentWorking) :
    TaskMove w url k t { t with pc := .finished } [(k, passLine w t.proxy)] []

/-- The number of lines a task has sent on `resultChan`. -/
def sentCount : Option Task → Nat
  | none => 0
  | some t =>
    match t.pc with
    | .running => t.i
    | .sentWorking => 3
    | .finished => 4

/-- The local state of task `k` agrees with the trials it has run. -/
def TaskOK (w : World) (proxies : List GoString) (k : Nat) (t : Task) : Prop :=
  t.proxy = proxies.getD k [] ∧ t.i ≤ 3 ∧
  t.successCount = successesUpTo w proxies k t.i ∧
  (t.pc ≠ .running → t.i = 3) ∧
  (t.pc = .sentWorking → t.successCount = 3) ∧
  (t.pc = .finished → sentCount (some t) = 4)

/-- 1 for a task that has not yet reached its verdict, else 0. -/
def runningWeight (t : Task) : Nat := if t.pc = .running then 1 else 0

/-- The invariant of a run of `testProxies` on the list `proxies`. -/
structure Inv (w : World) (proxies : List GoString) (s : State) : Prop where
  proxies_eq : s.proxies = proxies
  url_eq : s.url = targetURL w
  len_le : s.tasks.length ≤ proxies.length
  len_eq : s.main ≠ .spawning → s.tasks.length = proxies.length
  task_ok : ∀ k t, s.tasks[k]? = some t → TaskOK w proxies k t
  lines : ∀ k, linesOf k (s.results ++ s.resultChan) =
    (taskLines w proxies k).take (sentCount s.tasks[k]?)
  w_nodup : ((s.working ++ s.workingChan).map Prod.fst).Nodup
  w_sound : ∀ m ∈ s.working ++ s.workingChan, ∃ t, s.tasks[m.1]? = some t ∧
    t.pc ≠ .running ∧ t.successCount = 3 ∧ m.2 = proxies.getD m.1 []
  w_complete : ∀ k t, s.tasks[k]? = some t → t.pc ≠ .running → t.successCount = 3 →
    k ∈ (s.working ++ s.workingChan).map Prod.fst
  w_room : (s.working ++ s.workingChan).length + (s.tasks.map runningWeight).sum ≤
    s.tasks.length
  closer_spawn : s.closer = .notStarted ↔ s.main = .spawning
  closed_done : s.resultClosed = true → ∀ t ∈ s.tasks, t.pc = .finished
  drain_working : s.main = .drainWorking → s.resultClosed = true ∧ s.resultChan = []
  returned : s.main = .returned →
    s.closer = .exited ∧ s.resultChan = [] ∧ s.workingChan = [] ∧
    s.summary = some
      { totalTested := proxies.length,
        totalWorking := s.working.length,
        successRate := successRateOf s.working.length proxies.length } ∧
    s.saved = saveProxies w.createFile (s.working.map Prod.snd)
  not_returned : s.main ≠ .returned → s.summary = none ∧ s.saved = none

/-- Steps a task can still make, as a bound. -/
def taskRem (t : Task) : Nat :=
  match t.pc with
  | .running => (3 - t.i) + 2
  | .sentWorking => 1
  | .finished => 0

/-- Steps the calling goroutine still makes outside the receive loops. -/
def mainRem : MainPc → Nat
  | .spawning => 5
  | .drainResults => 2
  | .drainWorking => 1
  | .returned => 0

/-- Steps the closer goroutine can still make. -/
def closerRem : CloserPc → Nat
  | .notStarted => 3
  | .waiting => 2
  | .closedResults => 1
  | .exited => 0

/-- The termination measure: it decreases with every move of every actor. -/
def measure (s : State) : Nat :=
  mainRem s.main + closerRem s.closer + 2 * (s.tasks.map taskRem).sum +
    11 * (s.proxies.length - s.tasks.length) + s.resultChan.length + s.workingChan.length

/-! ## Strings: basic facts -/

theorem hasPrefix_iff (s pre : GoString) : hasPrefix s pre = true ↔ pre <+: s := by
  induction s generalizing pre with
  | nil => cases pre <;> simp [hasPrefix]
  | cons c s ih =>
    cases pre with
    | nil => simp [hasPrefix]
    | cons d pre =>
      simp only [hasPrefix, Bool.and_eq_true, beq_iff_eq, ih, List.cons_prefix_cons]
      constructor
      · rintro ⟨h1, h2⟩
        exact ⟨h1.symm, h2⟩
      · rintro ⟨h1, h2⟩
        exact ⟨h1.symm, h2⟩

theorem hasPrefix_eq_false_iff (s pre : GoString) : hasPrefix s pre = false ↔ ¬ pre <+: s := by
  rw [← hasPrefix_iff]
  simp

theorem contains_iff (s sub : GoString) : contains s sub = true ↔ sub <:+: s := by
  induction s with
  | nil =>
    simp only [contains, hasPrefix_iff, List.prefix_nil, List.infix_nil]
  | cons c s ih =>
    simp only [contains, Bool.or_eq_true, hasPrefix_iff, ih, List.infix_cons_iff]

theorem contains_eq_false_iff (s sub : GoString) : contains s sub = false ↔ ¬ sub <:+: s := by
  rw [← contains_iff]
  simp

theorem hasPrefix_append (pre s : GoString) : hasPrefix (pre ++ s) pre = true :=
  (hasPrefix_iff _ _).2 (List.prefix_append pre s)

theorem trimPrefix_append (pre s : GoString) : trimPrefix (pre ++ s) pre = s := by
  simp [trimPrefix, hasPrefix_append]

theorem trimSpace_eq (s : GoString) :
    trimSpace s = (s.dropWhile isSpace).rdropWhile isSpace := rfl

theorem trimmed_trimSpace (s : GoString) : Trimmed (trimSpace s) := by
  constructor
  · intro c hc
    rw [trimSpace_eq] at hc
    have hpre : (s.dropWhile isSpace).rdropWhile isSpace <+: s.dropWhile isSpace :=
      List.rdropWhile_prefix _ _
    have hhead : (s.dropWhile isSpace).head? = some c := by
      obtain ⟨t, ht⟩ := hpre
      rw [← ht]
      cases h : (s.dropWhile isSpace).rdropWhile isSpace with
      | nil => rw [h] at hc; simp at hc
      | cons a l => rw [h] at hc; simpa using hc
    have := List.head?_dropWhile_not isSpace s
    rw [hhead] at this
    simpa using this
  · intro c hc
    rw [trimSpace_eq] at hc
    by_cases hne : (s.dropWhile isSpace).rdropWhile isSpace = []
    · rw [hne] at hc; simp at hc
    · have := List.rdropWhile_last_not isSpace (s.dropWhile isSpace) hne
      rw [List.getLast?_eq_getLast _ hne] at hc
      simp only [Option.some.injEq] at hc
      rw [hc] at this
      simpa using this

theorem trimSpace_of_trimmed {s : GoString} (h : Trimmed s) : trimSpace s = s := by
  have h1 : s.dropWhile isSpace = s := by
    cases s with
    | nil => rfl
    | cons a l =>
      have := h.1 a rfl
      simp [List.dropWhile_cons, this]
  rw [trimSpace_eq, h1, List.rdropWhile_eq_self_iff]
  intro hl
  have := h.2 (s.getLast hl) (List.getLast?_eq_getLast _ hl)
  simp [this]

theorem trimmed_http_append {t : GoString} (h : Trimmed t) :
    Trimmed ("http://".toList ++ t) := by
  constructor
  · intro c hc
    have : c = 'h' := by
      have h0 : ("http://".toList ++ t).head? = some 'h' := rfl
      rw [h0] at hc
      exact (Option.some.inj hc).symm
    subst this
    decide
  · intro c hc
    rw [List.getLast?_append] at hc
    cases ht : t.getLast? with
    | none =>
      rw [ht] at hc
      have : c = '/' := by
        have h0 : ("http://".toList).getLast? = some '/' := by decide
        simp only [Option.or, h0] at hc
        exact (Option.some.inj hc).symm
      subst this
      decide
    | some d =>
      rw [ht] at hc
      simp only [Option.or] at hc
      exact h.2 c (by rw [ht, hc])

theorem normalizeProxy_cases (proxy : GoString) :
    (normalizeProxy proxy = trimSpace proxy ∧
      ("http://".toList <+: trimSpace proxy ∨ "https://".toList <+: trimSpace proxy)) ∨
    (normalizeProxy proxy = "http://".toList ++ trimSpace proxy ∧
      ¬ "http://".toList <+: trimSpace proxy ∧ ¬ "https://".toList <+: trimSpace proxy) := by
  unfold normalizeProxy
  by_cases h1 : hasPrefix (trimSpace proxy) "http://".toList = true
  · left
    simp only [h1, Bool.not_true, Bool.false_and]
    exact ⟨by simp, Or.inl ((hasPrefix_iff _ _).1 h1)⟩
  · by_cases h2 : hasPrefix (trimSpace proxy) "https://".toList = true
    · left
      simp only [h2, Bool.not_true, Bool.and_false]
      exact ⟨by simp, Or.inr ((hasPrefix_iff _ _).1 h2)⟩
    · right
      simp only [Bool.not_eq_true] at h1 h2
      simp only [h1, h2, Bool.not_false, Bool.and_self]
      exact ⟨by simp, (hasPrefix_eq_false_iff _ _).1 h1, (hasPrefix_eq_false_iff _ _).1 h2⟩

theorem trimmed_normalizeProxy (proxy : GoString) : Trimmed (normalizeProxy proxy) := by
  rcases normalizeProxy_cases proxy with ⟨h, _⟩ | ⟨h, _⟩
  · rw [h]; exact trimmed_trimSpace proxy
  · rw [h]; exact trimmed_http_append (trimmed_trimSpace proxy)

theorem scheme_normalizeProxy (proxy : GoString) :
    "http://".toList <+: normalizeProxy proxy ∨ "https://".toList <+: normalizeProxy proxy := by
  rcases normalizeProxy_cases proxy with ⟨h, hp⟩ | ⟨h, _⟩
  · rw [h]; exact hp
  · rw [h]; exact Or.inl (List.prefix_append _ _)

/-! ## The claims on `proxyURLFromString` and `formatURL` -/

/-- C10, counterexample: the proxy strings `socks5://1.2.3.4:1080` and
`HTTP://1.2.3.4:80` carry a scheme, yet `proxyURLFromString` does not parse
them unchanged: it puts `http://` in front of both. -/
theorem normalizeProxy_other_scheme :
    carriesScheme (trimSpace "socks5://1.2.3.4:1080".toList) = true ∧
    normalizeProxy "socks5://1.2.3.4:1080".toList = "http://socks5://1.2.3.4:1080".toList ∧
    normalizeProxy "socks5://1.2.3.4:1080".toList ≠ trimSpace "socks5://1.2.3.4:1080".toList ∧
    proxyURLFromString demoWorld "socks5://1.2.3.4:1080".toList =
      some "http://socks5://1.2.3.4:1080".toList ∧
    carriesScheme (trimSpace "HTTP://1.2.3.4:80".toList) = true ∧
    normalizeProxy "HTTP://1.2.3.4:80".toList = "http://HTTP://1.2.3.4:80".toList ∧
    normalizeProxy "HTTP://1.2.3.4:80".toList ≠ trimSpace "HTTP://1.2.3.4:80".toList := by
  refine ⟨by decide, by decide, by decide, by decide, by decide, by decide, by decide⟩

/-- C10, amended: `proxyURLFromString` hands `normalizeProxy proxy` to the URL
parser; that string is the white-space-trimmed proxy with `http://` put in
front when the trimmed proxy starts with neither `http://` nor `https://` (in
lower case; any other scheme counts as none), and the trimmed proxy itself
when it starts with one of the two; it always starts with `http://` or
`https://`; and normalising a normalised string changes nothing. -/
theorem proxyURLFromString_normalises (w : World) (proxy : GoString) :
    (proxyURLFromString w proxy =
      if w.urlParse (normalizeProxy proxy) then some (normalizeProxy proxy) else none) ∧
    (¬ "http://".toList <+: trimSpace proxy ∧ ¬ "https://".toList <+: trimSpace proxy →
      normalizeProxy proxy = "http://".toList ++ trimSpace proxy) ∧
    ("http://".toList <+: trimSpace proxy ∨ "https://".toList <+: trimSpace proxy →
      normalizeProxy proxy = trimSpace proxy) ∧
    ("http://".toList <+: normalizeProxy proxy ∨ "https://".toList <+: normalizeProxy proxy) ∧
    normalizeProxy (normalizeProxy proxy) = normalizeProxy proxy ∧
    proxyURLFromString w (normalizeProxy proxy) = proxyURLFromString w proxy := by
  have hidem : normalizeProxy (normalizeProxy proxy) = normalizeProxy proxy := by
    rcases normalizeProxy_cases (normalizeProxy proxy) with ⟨h, _⟩ | ⟨_, h1, h2⟩
    · rw [h, trimSpace_of_trimmed (trimmed_normalizeProxy proxy)]
    · rw [trimSpace_of_trimmed (trimmed_normalizeProxy proxy)] at h1 h2
      rcases scheme_normalizeProxy proxy with h | h
      · exact absurd h h1
      · exact absurd h h2
  refine ⟨rfl, ?_, ?_, scheme_normalizeProxy proxy, hidem, ?_⟩
  · rintro ⟨h1, h2⟩
    rcases normalizeProxy_cases proxy with ⟨_, hp⟩ | ⟨h, _⟩
    · rcases hp with hp | hp
      · exact absurd hp h1
      · exact absurd hp h2
    · exact h
  · intro hp
    rcases normalizeProxy_cases proxy with ⟨h, _⟩ | ⟨_, h1, h2⟩
    · exact h
    · rcases hp with hp | hp
      · exact absurd hp h1
      · exact absurd hp h2
  · unfold proxyURLFromString
    rw [hidem]

theorem proxyURLFromString_normalises_witness :
    ¬ "http://".toList <+: trimSpace "  10.0.0.1:8080 ".toList ∧
    ¬ "https://".toList <+: trimSpace "  10.0.0.1:8080 ".toList ∧
    normalizeProxy "  10.0.0.1:8080 ".toList = "http://10.0.0.1:8080".toList :=
  ⟨by rw [← hasPrefix_iff]; decide, by rw [← hasPrefix_iff]; decide,
   ((proxyURLFromString_normalises demoWorld "  10.0.0.1:8080 ".toList).2.1
      ⟨by rw [← hasPrefix_iff]; decide, by rw [← hasPrefix_iff]; decide⟩).trans (by decide)⟩

/-- C9, counterexample: in HTTP mode `formatURL` returns `http://example.com`
unchanged, and the result does not start with `http://www.`. -/
theorem formatURL_scheme_present_no_www :
    formatURL "HTTP".toList "http://example.com".toList = "http://example.com".toList ∧
    ¬ "http://www.".toList <+: formatURL "HTTP".toList "http://example.com".toList := by
  refine ⟨by decide, ?_⟩
  rw [← hasPrefix_iff]
  decide

/-- C9, amended: a URL that already starts with the scheme of the mode
(`http://` in HTTP mode, `https://` in every other mode) is returned
unchanged. For a URL that does not, `formatURL` returns the scheme, `www.` and
the URL with one leading `www.` removed: the result starts with the scheme
followed by `www.`, and when the URL already starts with `www.` the result is
the scheme followed by the URL, so `www.` is not added a second time. -/
theorem formatURL_by_scheme (mode url : GoString) :
    (modeScheme mode <+: url → formatURL mode url = url) ∧
    (¬ modeScheme mode <+: url →
      formatURL mode url = modeScheme mode ++ "www.".toList ++ trimPrefix url "www.".toList ∧
      (modeScheme mode ++ "www.".toList) <+: formatURL mode url ∧
      ("www.".toList <+: url → formatURL mode url = modeScheme mode ++ url) ∧
      (¬ "www.".toList <+: url →
        formatURL mode url = modeScheme mode ++ "www.".toList ++ url)) := by
  constructor
  · intro h
    unfold formatURL
    unfold modeScheme at h
    by_cases hm : mode = "HTTP".toList
    · simp only [hm, if_true] at h ⊢
      rw [(hasPrefix_iff _ _).2 h]
      rfl
    · simp only [hm, if_false] at h ⊢
      rw [(hasPrefix_iff _ _).2 h]
      rfl
  · intro h
    have hf : formatURL mode url =
        modeScheme mode ++ "www.".toList ++ trimPrefix url "www.".toList := by
      unfold formatURL modeScheme
      unfold modeScheme at h
      by_cases hm : mode = "HTTP".toList
      · simp only [hm, if_true] at h ⊢
        rw [(hasPrefix_eq_false_iff _ _).2 h]
        rfl
      · simp only [hm, if_false] at h ⊢
        rw [(hasPrefix_eq_false_iff _ _).2 h]
        rfl
    refine ⟨hf, ?_, ?_, ?_⟩
    · rw [hf]
      exact List.prefix_append _ _
    · rintro ⟨rest, hrest⟩
      rw [hf, ← hrest, trimPrefix_append, List.append_assoc]
    · intro hw
      rw [hf]
      unfold trimPrefix
      rw [(hasPrefix_eq_false_iff _ _).2 hw]
      rfl

theorem formatURL_by_scheme_witness :
    ¬ modeScheme "HTTPS".toList <+: "www.example.com".toList ∧
    "www.".toList <+: "www.example.com".toList ∧
    formatURL "HTTPS".toList "www.example.com".toList = "https://www.example.com".toList :=
  ⟨by rw [← hasPrefix_iff]; decide, by rw [← hasPrefix_iff]; decide,
   (((formatURL_by_scheme "HTTPS".toList "www.example.com".toList).2
      (by rw [← hasPrefix_iff]; decide)).2.2.1 (by rw [← hasPrefix_iff]; decide)).trans
      (by decide)⟩

/-! ## The claims on `checkProxy` -/

theorem classifyError_eq_describeError (errText : GoString) :
    classifyError errText = describeError errText := by
  unfold classifyError describeError errorTable
  simp only [List.find?]
  cases h1 : contains errText "context deadline exceeded".toList
  case true => rfl
  cases h2 : contains errText "connection refused".toList
  case true => rfl
  cases h3 : contains errText "no such host".toList
  case true => rfl
  cases h4 : contains errText "EOF".toList
  case true => rfl
  cases h5 : contains errText "malformed HTTP response".toList
  case true => rfl
  cases h6 : contains errText "i/o timeout".toList
  case true => rfl
  rfl

theorem classifyError_unknown_iff (errText : GoString) :
    classifyError errText = "Unknown error".toList ↔
      ∀ e ∈ errorTable, ¬ e.1 <:+: errText := by
  have hall : (∀ e ∈ errorTable, ¬ e.1 <:+: errText) ↔
      (contains errText "context deadline exceeded".toList = false ∧
       contains errText "connection refused".toList = false ∧
       contains errText "no such host".toList = false ∧
       contains errText "EOF".toList = false ∧
       contains errText "malformed HTTP response".toList = false ∧
       contains errText "i/o timeout".toList = false) := by
    simp only [errorTable, List.mem_cons, List.mem_singleton, forall_eq_or_imp, forall_eq,
      contains_eq_false_iff, List.not_mem_nil, false_imp_iff, implies_true, and_true]
  rw [hall]
  unfold classifyError
  constructor
  · intro h
    split_ifs at h with h1 h2 h3 h4 h5 h6
    · exact absurd h (by decide)
    · exact absurd h (by decide)
    · exact absurd h (by decide)
    · exact absurd h (by decide)
    · exact absurd h (by decide)
    · exact absurd h (by decide)
    · simp only [Bool.not_eq_true] at h1 h2 h3 h4 h5 h6
      exact ⟨h1, h2, h3, h4, h5, h6⟩
  · rintro ⟨h1, h2, h3, h4, h5, h6⟩
    rw [h1, h2, h3, h4, h5, h6]
    rfl

theorem checkProxy_failure (w : World) (proxy url errText : GoString) (ms : Int)
    (hparse : proxyURLFromString w proxy ≠ none) (hreq : w.newRequest url = true) :
    checkProxy w (.failure errText ms) proxy url =
      ⟨false, w.redString "Error: ".toList ++ proxy ++ " - ".toList ++ classifyError errText
        ++ " (".toList ++ fmtD ms ++ " ms)".toList,
        [.buildClient, .createRequest, .doRequest]⟩ := by
  unfold checkProxy
  cases h : proxyURLFromString w proxy with
  | none => exact absurd h hparse
  | some u => simp [hreq]

/-- C3: when the proxy parses, the request is created and the round trip
returns a response, `checkProxy` reports success exactly when the status code
is 200; for every other code `N` the result is a failure whose message is the
yellow `Warning: ` tag, the proxy, ` - Unexpected status code N` and the
duration. With colours off that message starts with `Warning: ` and not with
the `Error: ` tag, which is the tag of the transport failures. -/
theorem checkProxy_status (w : World) (proxy url : GoString) (statusCode ms : Int)
    (hparse : proxyURLFromString w proxy ≠ none) (hreq : w.newRequest url = true) :
    ((checkProxy w (.response statusCode ms) proxy url).success = true ↔ statusCode = 200) ∧
    (statusCode ≠ 200 →
      (checkProxy w (.response statusCode ms) proxy url).success = false ∧
      (checkProxy w (.response statusCode ms) proxy url).message =
        w.yellowString "Warning: ".toList ++ proxy ++ " - Unexpected status code ".toList
          ++ fmtD statusCode ++ " (".toList ++ fmtD ms ++ " ms)".toList ∧
      "Warning: ".toList <+: (checkProxy w.plain (.response statusCode ms) proxy url).message ∧
      ¬ "Error: ".toList <+: (checkProxy w.plain (.response statusCode ms) proxy url).message) ∧
    (∀ errText, (checkProxy w (.failure errText ms) proxy url).success = false ∧
      w.redString "Error: ".toList <+: (checkProxy w (.failure errText ms) proxy url).message) := by
  have hplain : proxyURLFromString w.plain proxy ≠ none := hparse
  have hreqp : w.plain.newRequest url = true := hreq
  refine ⟨?_, ?_, ?_⟩
  · unfold checkProxy
    cases h : proxyURLFromString w proxy with
    | none => exact absurd h hparse
    | some u =>
      by_cases hs : statusCode = 200
      · simp [hreq, hs]
      · simp [hreq, hs]
  · intro hs
    have key : ∀ v : World, proxyURLFromString v proxy ≠ none → v.newRequest url = true →
        checkProxy v (.response statusCode ms) proxy url =
          ⟨false, v.yellowString "Warning: ".toList ++ proxy
            ++ " - Unexpected status code ".toList ++ fmtD statusCode ++ " (".toList ++ fmtD ms
            ++ " ms)".toList, [.buildClient, .createRequest, .doRequest]⟩ := by
      intro v hv hr
      unfold checkProxy
      cases h : proxyURLFromString v proxy with
      | none => exact absurd h hv
      | some u => simp [hr, hs]
    rw [key w hparse hreq, key w.plain hplain hreqp]
    refine ⟨rfl, rfl, ?_, ?_⟩
    · simp only [World.plain, id, List.append_assoc]
      exact List.prefix_append _ _
    · simp only [World.plain, id, List.append_assoc]
      rw [← hasPrefix_iff]
      simp [hasPrefix]
  · intro errText
    rw [checkProxy_failure w proxy url errText ms hparse hreq]
    refine ⟨rfl, ?_⟩
    simp only [List.append_assoc]
    exact List.prefix_append _ _

theorem checkProxy_status_witness :
    (checkProxy demoWorld (.response 404 31) "10.0.0.1:8080".toList
        "http://www.example.com".toList).success = false ∧
    (checkProxy demoWorld (.response 404 31) "10.0.0.1:8080".toList
        "http://www.example.com".toList).message =
      "Warning: 10.0.0.1:8080 - Unexpected status code 404 (31 ms)".toList :=
  ⟨((checkProxy_status demoWorld "10.0.0.1:8080".toList "http://www.example.com".toList 404 31
      (by decide) (by decide)).2.1 (by decide)).1,
   ((checkProxy_status demoWorld "10.0.0.1:8080".toList "http://www.example.com".toList 404 31
      (by decide) (by decide)).2.1 (by decide)).2.1.trans (by decide)⟩

/-- C4: when the proxy parses, the request is created and the round trip fails
with a transport error, `checkProxy` returns success=false and its message is
the red `Error: ` tag, the proxy, the description of the first entry of the
substring table that occurs in the error text (`Unknown error` when none
does) and the duration; the description is `Unknown error` exactly when none
of the six substrings occurs in the text. -/
theorem checkProxy_transport_error (w : World) (proxy url errText : GoString) (ms : Int)
    (hparse : proxyURLFromString w proxy ≠ none) (hreq : w.newRequest url = true) :
    (checkProxy w (.failure errText ms) proxy url).success = false ∧
    (checkProxy w (.failure errText ms) proxy url).message =
      w.redString "Error: ".toList ++ proxy ++ " - ".toList ++ describeError errText
        ++ " (".toList ++ fmtD ms ++ " ms)".toList ∧
    (describeError errText = "Unknown error".toList ↔
      ∀ e ∈ errorTable, ¬ e.1 <:+: errText) ∧
    errorTable.map Prod.fst =
      ["context deadline exceeded".toList, "connection refused".toList, "no such host".toList,
       "EOF".toList, "malformed HTTP response".toList, "i/o timeout".toList] := by
  rw [checkProxy_failure w proxy url errText ms hparse hreq, ← classifyError_eq_describeError]
  exact ⟨rfl, rfl, classifyError_unknown_iff errText, rfl⟩

theorem checkProxy_transport_error_witness :
    (checkProxy demoWorld (.failure "read tcp 10.0.0.1:8080: unexpected EOF".toList 7)
        "10.0.0.1:8080".toList "http://www.example.com".toList).message =
      "Error: 10.0.0.1:8080 - Connection closed unexpectedly (7 ms)".toList :=
  (checkProxy_transport_error demoWorld "10.0.0.1:8080".toList "http://www.example.com".toList
    "read tcp 10.0.0.1:8080: unexpected EOF".toList 7 (by decide) (by decide)).2.1.trans
    (by decide)

/-- C5, counterexample: the error text of a DNS lookup that times out for the
proxy host `EOF.example.com` contains `i/o timeout`, yet `checkProxy`
classifies it as `Connection closed unexpectedly`, which is neither `Timed out`
nor `Connection timed out`, because `EOF` is matched first. -/
theorem timeout_text_classified_closed :
    "i/o timeout".toList <:+: dnsTimeoutText ∧
    (checkProxy demoWorld (.failure dnsTimeoutText 5)
        "EOF.example.com:8080".toList "http://www.example.com".toList).message =
      "Error: EOF.example.com:8080 - Connection closed unexpectedly (5 ms)".toList ∧
    classifyError dnsTimeoutText ≠ "Timed out".toList ∧
    classifyError dnsTimeoutText ≠ "Connection timed out".toList := by
  refine ⟨?_, by decide, by decide, by decide⟩
  rw [← contains_iff]
  decide

/-- C5, amended: when the proxy parses, the request is created and the round
trip fails with an error text that contains `context deadline exceeded` or
`i/o timeout`, the message of `checkProxy` carries a description that is never
`Unknown error`. The description is `Timed out` whenever the text contains
`context deadline exceeded`. For a text without `context deadline exceeded`
it is the description of the first of `connection refused`, `no such host`,
`EOF`, `malformed HTTP response` that occurs in the text (`Connection refused`,
`Host not found`, `Connection closed unexpectedly`,
`Invalid response from proxy`), and `Connection timed out` when none of the
four occurs. So it is `Timed out` or `Connection timed out` whenever none of
the four occurs. -/
theorem checkProxy_timeout_text (w : World) (proxy url errText : GoString) (ms : Int)
    (hparse : proxyURLFromString w proxy ≠ none) (hreq : w.newRequest url = true)
    (h : "context deadline exceeded".toList <:+: errText ∨ "i/o timeout".toList <:+: errText) :
    (checkProxy w (.failure errText ms) proxy url).message =
      w.redString "Error: ".toList ++ proxy ++ " - ".toList ++ classifyError errText
        ++ " (".toList ++ fmtD ms ++ " ms)".toList ∧
    classifyError errText ≠ "Unknown error".toList ∧
    ("context deadline exceeded".toList <:+: errText →
      classifyError errText = "Timed out".toList) ∧
    (¬ "context deadline exceeded".toList <:+: errText →
      "connection refused".toList <:+: errText →
      classifyError errText = "Connection refused".toList) ∧
    (¬ "context deadline exceeded".toList <:+: errText →
      ¬ "connection refused".toList <:+: errText → "no such host".toList <:+: errText →
      classifyError errText = "Host not found".toList) ∧
    (¬ "context deadline exceeded".toList <:+: errText →
      ¬ "connection refused".toList <:+: errText → ¬ "no such host".toList <:+: errText →
      "EOF".toList <:+: errText →
      classifyError errText = "Connection closed unexpectedly".toList) ∧
    (¬ "context deadline exceeded".toList <:+: errText →
      ¬ "connection refused".toList <:+: errText → ¬ "no such host".toList <:+: errText →
      ¬ "EOF".toList <:+: errText → "malformed HTTP response".toList <:+: errText →
      classifyError errText = "Invalid response from proxy".toList) ∧
    (¬ "context deadline exceeded".toList <:+: errText →
      ¬ "connection refused".toList <:+: errText → ¬ "no such host".toList <:+: errText →
      ¬ "EOF".toList <:+: errText → ¬ "malformed HTTP response".toList <:+: errText →
      classifyError errText = "Connection timed out".toList) ∧
    (¬ "connection refused".toList <:+: errText ∧ ¬ "no such host".toList <:+: errText ∧
      ¬ "EOF".toList <:+: errText ∧ ¬ "malformed HTTP response".toList <:+: errText →
      classifyError errText = "Timed out".toList ∨
        classifyError errText = "Connection timed out".toList) := by
  rw [checkProxy_failure w proxy url errText ms hparse hreq]
  have hlast : ¬ "context deadline exceeded".toList <:+: errText →
      ¬ "connection refused".toList <:+: errText → ¬ "no such host".toList <:+: errText →
      ¬ "EOF".toList <:+: errText → ¬ "malformed HTTP response".toList <:+: errText →
      classifyError errText = "Connection timed out".toList := by
    intro h1 h2 h3 h4 h5
    have h6 : "i/o timeout".toList <:+: errText := h.resolve_left h1
    unfold classifyError
    rw [(contains_eq_false_iff _ _).2 h1, (contains_eq_false_iff _ _).2 h2,
      (contains_eq_false_iff _ _).2 h3, (contains_eq_false_iff _ _).2 h4,
      (contains_eq_false_iff _ _).2 h5, (contains_iff _ _).2 h6]
    rfl
  have hfirst : "context deadline exceeded".toList <:+: errText →
      classifyError errText = "Timed out".toList := by
    intro hd
    unfold classifyError
    rw [(contains_iff _ _).2 hd]
    rfl
  refine ⟨rfl, ?_, hfirst, ?_, ?_, ?_, ?_, hlast, ?_⟩
  · intro hu
    have hnone := (classifyError_unknown_iff errText).1 hu
    rcases h with h | h
    · exact hnone ("context deadline exceeded".toList, "Timed out".toList)
        (by simp [errorTable]) h
    · exact hnone ("i/o timeout".toList, "Connection timed out".toList)
        (by simp [errorTable]) h
  · intro h1 h2
    unfold classifyError
    rw [(contains_eq_false_iff _ _).2 h1, (contains_iff _ _).2 h2]
    rfl
  · intro h1 h2 h3
    unfold classifyError
    rw [(contains_eq_false_iff _ _).2 h1, (contains_eq_false_iff _ _).2 h2,
      (contains_iff _ _).2 h3]
    rfl
  · intro h1 h2 h3 h4
    unfold classifyError
    rw [(contains_eq_false_iff _ _).2 h1, (contains_eq_false_iff _ _).2 h2,
      (contains_eq_false_iff _ _).2 h3, (contains_iff _ _).2 h4]
    rfl
  · intro h1 h2 h3 h4 h5
    unfold classifyError
    rw [(contains_eq_false_iff _ _).2 h1, (contains_eq_false_iff _ _).2 h2,
      (contains_eq_false_iff _ _).2 h3, (contains_eq_false_iff _ _).2 h4,
      (contains_iff _ _).2 h5]
    rfl
  · rintro ⟨h2, h3, h4, h5⟩
    by_cases hd : "context deadline exceeded".toList <:+: errText
    · exact Or.inl (hfirst hd)
    · exact Or.inr (hlast hd h2 h3 h4 h5)

theorem checkProxy_timeout_text_witness :
    "i/o timeout".toList <:+: "dial tcp 10.0.0.1:8080: i/o timeout".toList ∧
    classifyError "dial tcp 10.0.0.1:8080: i/o timeout".toList ≠ "Unknown error".toList :=
  ⟨by rw [← contains_iff]; decide,
   (checkProxy_timeout_text demoWorld "10.0.0.1:8080".toList "http://www.example.com".toList
      "dial tcp 10.0.0.1:8080: i/o timeout".toList 10000 (by decide) (by decide)
      (Or.inr (by rw [← contains_iff]; decide))).2.1⟩

/-- C6: when the normalised proxy string does not parse (`proxyURLFromString`
returns an error), `checkProxy` returns success=false with the message
`Error: ` (in red) followed by the proxy and ` - Invalid proxy format`, and it
performs no network effect at all: no client is built, no request is created
or issued. This holds for every target URL and every round-trip outcome. With
colours off the message is the plain text. -/
theorem checkProxy_invalid_proxy (w : World) (t : Transport) (proxy url : GoString)
    (hparse : proxyURLFromString w proxy = none) :
    (checkProxy w t proxy url).success = false ∧
    (checkProxy w t proxy url).message =
      w.redString "Error: ".toList ++ proxy ++ " - Invalid proxy format".toList ∧
    (checkProxy w t proxy url).effects = [] ∧
    (checkProxy w.plain t proxy url).message =
      "Error: ".toList ++ proxy ++ " - Invalid proxy format".toList := by
  have hplain : proxyURLFromString w.plain proxy = none := hparse
  unfold checkProxy
  rw [hparse, hplain]
  exact ⟨rfl, rfl, rfl, rfl⟩

theorem checkProxy_invalid_proxy_witness :
    proxyURLFromString demoWorld "10.0.0.1:80\x01".toList = none ∧
    (checkProxy demoWorld (.response 200 1) "10.0.0.1:80\x01".toList
      "http://www.example.com".toList).effects = [] :=
  ⟨by decide,
   (checkProxy_invalid_proxy demoWorld (.response 200 1) "10.0.0.1:80\x01".toList
      "http://www.example.com".toList (by decide)).2.2.1⟩

/-! ## The proxy store -/

theorem stepTask_cases {w : World} {k : Nat} {s s' : State} (h : stepTask w k s = some s') :
    ∃ t t' out wout, s.tasks[k]? = some t ∧ TaskMove w s.url k t t' out wout ∧
      s' = { s with tasks := s.tasks.set k t', resultChan := s.resultChan ++ out,
                    workingChan := s.workingChan ++ wout } := by
  unfold stepTask at h
  cases ht : s.tasks[k]? with
  | none => simp [ht] at h
  | some t =>
    simp only [ht] at h
    cases hpc : t.pc with
    | finished => simp [hpc] at h
    | running =>
      simp only [hpc] at h
      by_cases h1 : t.i < 3
      · rw [if_pos h1] at h
        by_cases h2 : s.resultChan.length < s.resultCap
        · rw [if_pos h2] at h
          refine ⟨t, _, _, _, rfl, TaskMove.trial t hpc h1, ?_⟩
          simp only [Option.some.injEq] at h
          rw [← h]
          simp [hpc]
        · rw [if_neg h2] at h
          exact absurd h (by simp)
      · rw [if_neg h1] at h
        by_cases h3 : t.successCount = 3
        · rw [if_pos h3] at h
          by_cases h4 : s.workingChan.length < s.workingCap
          · rw [if_pos h4] at h
            refine ⟨t, _, _, _, rfl, TaskMove.working t hpc h1 h3, ?_⟩
            simp only [Option.some.injEq] at h
            rw [← h]
            simp
          · rw [if_neg h4] at h
            exact absurd h (by simp)
        · rw [if_neg h3] at h
          by_cases h2 : s.resultChan.length < s.resultCap
          · rw [if_pos h2] at h
            refine ⟨t, _, _, _, rfl, TaskMove.fail t hpc h1 h3, ?_⟩
            simp only [Option.some.injEq] at h
            rw [← h]
            simp
          · rw [if_neg h2] at h
            exact absurd h (by simp)
    | sentWorking =>
      simp only [hpc] at h
      by_cases h2 : s.resultChan.length < s.resultCap
      · rw [if_pos h2] at h
        refine ⟨t, _, _, _, rfl, TaskMove.pass t hpc, ?_⟩
        simp only [Option.some.injEq] at h
        rw [← h]
        simp
      · rw [if_neg h2] at h
        exact absurd h (by simp)

/-- The moves of the calling goroutine. -/
theorem stepMain_cases {w : World} {s s' : State} (h : stepMain w s = some s') :
    (∃ proxy, s.main = .spawning ∧ s.proxies[s.tasks.length]? = some proxy ∧
      s' = { s with tasks := s.tasks ++ [⟨proxy, 0, 0, .running⟩] }) ∨
    (s.main = .spawning ∧ s.proxies[s.tasks.length]? = none ∧
      s' = { s with closer := .waiting, main := .drainResults }) ∨
    (∃ m rest, s.main = .drainResults ∧ s.resultChan = m :: rest ∧
      s' = { s with resultChan := rest, results := s.results ++ [m] }) ∨
    (s.main = .drainResults ∧ s.resultChan = [] ∧ s.resultClosed = true ∧
      s' = { s with main := .drainWorking }) ∨
    (∃ m rest, s.main = .drainWorking ∧ s.workingChan = m :: rest ∧
      s' = { s with workingChan := rest, working := s.working ++ [m] }) ∨
    (s.main = .drainWorking ∧ s.workingChan = [] ∧ s.workingClosed = true ∧
      s' = { s with
        main := .returned,
        summary := some
          { totalTested := s.proxies.length,
            totalWorking := s.working.length,
            successRate := successRateOf s.working.length s.proxies.length },
        saved := saveProxies w.createFile (s.working.map Prod.snd) }) := by
  unfold stepMain at h
  cases hm : s.main with
  | spawning =>
    simp only [hm] at h
    cases hp : s.proxies[s.tasks.length]? with
    | some proxy =>
      simp only [hp, Option.some.injEq] at h
      exact Or.inl ⟨proxy, rfl, rfl, h.symm⟩
    | none =>
      simp only [hp, Option.some.injEq] at h
      exact Or.inr (Or.inl ⟨rfl, rfl, h.symm⟩)
  | drainResults =>
    simp only [hm] at h
    cases hc : s.resultChan with
    | cons m rest =>
      simp only [hc, Option.some.injEq] at h
      exact Or.inr (Or.inr (Or.inl ⟨m, rest, rfl, rfl, h.symm⟩))
    | nil =>
      simp only [hc] at h
      by_cases hcl : s.resultClosed = true
      · rw [if_pos hcl] at h
        simp only [Option.some.injEq] at h
        exact Or.inr (Or.inr (Or.inr (Or.inl ⟨rfl, rfl, hcl, h.symm⟩)))
      · rw [if_neg hcl] at h
        exact absurd h (by simp)
  | drainWorking =>
    simp only [hm] at h
    cases hc : s.workingChan with
    | cons m rest =>
      simp only [hc, Option.some.injEq] at h
      exact Or.inr (Or.inr (Or.inr (Or.inr (Or.inl ⟨m, rest, rfl, rfl, h.symm⟩))))
    | nil =>
      simp only [hc] at h
      by_cases hcl : s.workingClosed = true
      · rw [if_pos hcl] at h
        simp only [Option.some.injEq] at h
        exact Or.inr (Or.inr (Or.inr (Or.inr (Or.inr ⟨rfl, rfl, hcl, h.symm⟩))))
      · rw [if_neg hcl] at h
        exact absurd h (by simp)
  | returned =>
    simp [hm] at h

/-- The moves of the closer goroutine. -/
theorem stepCloser_cases {s s' : State} (h : stepCloser s = some s') :
    (s.closer = .waiting ∧ (∀ t ∈ s.tasks, t.pc = .finished) ∧
      s' = { s with closer := .closedResults }) ∨
    (s.closer = .closedResults ∧ s' = { s with closer := .exited }) := by
  unfold stepCloser at h
  cases hc : s.closer with
  | notStarted => simp [hc] at h
  | waiting =>
    simp only [hc] at h
    by_cases hall : (s.tasks.all fun t => t.pc = .finished) = true
    · rw [if_pos hall] at h
      simp only [Option.some.injEq] at h
      refine Or.inl ⟨rfl, ?_, h.symm⟩
      simpa using hall
    · rw [if_neg hall] at h
      exact absurd h (by simp)
  | closedResults =>
    simp only [hc, Option.some.injEq] at h
    exact Or.inr ⟨rfl, h.symm⟩
  | exited => simp [hc] at h

/-! ## The coordinator: what a move of a task preserves -/

theorem taskMove_ok {w : World} {proxies : List GoString} {url : GoString} {k : Nat}
    {t t' : Task} {out wout : List (Nat × GoString)} (hurl : url = targetURL w)
    (hok : TaskOK w proxies k t) (hmv : TaskMove w url k t t' out wout) :
    TaskOK w proxies k t' := by
  obtain ⟨hproxy, hi3, hsc, hnr, hsw, hfin⟩ := hok
  cases hmv with
  | trial hpc hi =>
    refine ⟨hproxy, by simp only; omega, ?_, ?_, ?_, ?_⟩
    · simp only [successesUpTo, trial, ← hproxy, ← hurl, hsc]
      split_ifs <;> rfl
    · intro h; exact absurd hpc h
    · intro h; rw [hpc] at h; exact absurd h (by decide)
    · intro h; rw [hpc] at h; exact absurd h (by decide)
  | working hpc hi hsc3 =>
    have h3 : t.i = 3 := by omega
    exact ⟨hproxy, hi3, hsc, fun _ => h3, fun _ => hsc3, fun h => absurd h (by simp)⟩
  | fail hpc hi hsc3 =>
    have h3 : t.i = 3 := by omega
    exact ⟨hproxy, hi3, hsc, fun _ => h3, fun h => absurd h (by simp), fun _ => rfl⟩
  | pass hpc =>
    exact ⟨hproxy, hi3, hsc, fun _ => hnr (by rw [hpc]; decide),
      fun h => absurd h (by simp), fun _ => rfl⟩

theorem taskMove_lines {w : World} {proxies : List GoString} {url : GoString} {k : Nat}
    {t t' : Task} {out wout : List (Nat × GoString)} (hurl : url = targetURL w)
    (hok : TaskOK w proxies k t) (hmv : TaskMove w url k t t' out wout) :
    (taskLines w proxies k).take (sentCount (some t')) =
      (taskLines w proxies k).take (sentCount (some t)) ++ out.map Prod.snd ∧
    ∀ m ∈ out, m.1 = k := by
  obtain ⟨hproxy, hi3, hsc, hnr, hsw, hfin⟩ := hok
  cases hmv with
  | trial hpc hi =>
    refine ⟨?_, by simp⟩
    simp only [sentCount, hpc, List.map_cons, List.map_nil]
    have hmsg : (checkProxy w (w.roundTrip k t.i) t.proxy url).message =
        (trial w proxies k t.i).message := by
      simp only [trial, ← hproxy, ← hurl]
    rw [hmsg]
    have : t.i = 0 ∨ t.i = 1 ∨ t.i = 2 := by omega
    rcases this with h | h | h <;> rw [h] <;> rfl
  | working hpc hi hsc3 =>
    have h3 : t.i = 3 := by omega
    refine ⟨?_, by simp⟩
    simp [sentCount, hpc, h3]
  | fail hpc hi hsc3 =>
    have h3 : t.i = 3 := by omega
    refine ⟨?_, by simp⟩
    have hv : verdictLine w proxies k = failLine w t.proxy t.successCount := by
      unfold verdictLine successCount
      rw [h3] at hsc
      rw [← hsc, if_neg hsc3, ← hproxy]
    simp only [sentCount, hpc, h3, List.map_cons, List.map_nil, ← hv]
    rfl
  | pass hpc =>
    refine ⟨?_, by simp⟩
    have h3 : t.i = 3 := hnr (by rw [hpc]; decide)
    have hv : verdictLine w proxies k = passLine w t.proxy := by
      unfold verdictLine successCount
      rw [h3] at hsc
      rw [← hsc, if_pos (hsw hpc), ← hproxy]
    simp only [sentCount, hpc, List.map_cons, List.map_nil, ← hv]
    rfl

theorem taskMove_rem {w : World} {url : GoString} {k : Nat}
    {t t' : Task} {out wout : List (Nat × GoString)} (hmv : TaskMove w url k t t' out wout) :
    2 * taskRem t' + out.length + wout.length < 2 * taskRem t := by
  cases hmv with
  | trial hpc hi => simp only [taskRem, hpc, List.length_singleton, List.length_nil]; omega
  | working hpc hi hsc3 => simp only [taskRem, hpc, List.length_singleton, List.length_nil]; omega
  | fail hpc hi hsc3 => simp only [taskRem, hpc, List.length_singleton, List.length_nil]; omega
  | pass hpc => simp only [taskRem, hpc, List.length_singleton, List.length_nil]; omega

theorem taskMove_working {w : World} {url : GoString} {k : Nat}
    {t t' : Task} {out wout : List (Nat × GoString)} (hmv : TaskMove w url k t t' out wout) :
    t.pc ≠ .finished ∧
    (t.pc ≠ .running → wout = [] ∧ t'.pc ≠ .running ∧ t'.successCount = t.successCount) ∧
    (wout = [] → t'.pc ≠ .running → t'.successCount = 3 →
      t.pc ≠ .running ∧ t.successCount = 3) ∧
    (wout ≠ [] → wout = [(k, t.proxy)] ∧ t.pc = .running ∧ t'.pc ≠ .running ∧
      t'.successCount = 3) ∧
    wout.length + runningWeight t' ≤ runningWeight t := by
  cases hmv with
  | trial hpc hi =>
    refine ⟨by simp [hpc], fun h => absurd hpc h, fun _ h => absurd hpc h,
      fun h => absurd rfl h, by simp [runningWeight, hpc]⟩
  | working hpc hi hsc3 =>
    refine ⟨by simp [hpc], fun h => absurd hpc h, fun h => absurd h (by simp),
      fun _ => ⟨rfl, hpc, by simp, hsc3⟩, by simp [runningWeight, hpc]⟩
  | fail hpc hi hsc3 =>
    refine ⟨by simp [hpc], fun h => absurd hpc h, fun _ _ h => absurd h hsc3,
      fun h => absurd rfl h, by simp [runningWeight, hpc]⟩
  | pass hpc =>
    refine ⟨by simp [hpc], fun _ => ⟨rfl, by simp, rfl⟩,
      fun _ _ h => ⟨by simp [hpc], h⟩, fun h => absurd rfl h, by simp [runningWeight, hpc]⟩

theorem sum_map_set {f : Task → Nat} (l : List Task) (k : Nat) (t t' : Task)
    (h : l[k]? = some t) : ((l.set k t').map f).sum + f t = (l.map f).sum + f t' := by
  induction l generalizing k with
  | nil => simp at h
  | cons a l ih =>
    cases k with
    | zero =>
      simp only [List.getElem?_cons_zero, Option.some.injEq] at h
      subst h
      simp only [List.set_cons_zero, List.map_cons, List.sum_cons]
      omega
    | succ k =>
      simp only [List.getElem?_cons_succ] at h
      have := ih k h
      simp only [List.set_cons_succ, List.map_cons, List.sum_cons]
      omega

theorem linesOf_append (k : Nat) (a b : List (Nat × GoString)) :
    linesOf k (a ++ b) = linesOf k a ++ linesOf k b := by
  simp [linesOf]

theorem linesOf_of_tag_eq (k : Nat) (out : List (Nat × GoString)) (h : ∀ m ∈ out, m.1 = k) :
    linesOf k out = out.map Prod.snd := by
  unfold linesOf
  rw [List.filter_eq_self.2]
  intro m hm
  simp [h m hm]

theorem linesOf_of_tag_ne (k j : Nat) (out : List (Nat × GoString)) (h : ∀ m ∈ out, m.1 = k)
    (hne : j ≠ k) : linesOf j out = [] := by
  unfold linesOf
  rw [List.filter_eq_nil_iff.2]
  · rfl
  · intro m hm
    simp only [decide_eq_true_eq]
    rw [h m hm]
    exact fun h => hne h.symm

/-! ## The coordinator: the invariant holds along every run -/

theorem inv_initState (w : World) (proxies : List GoString) :
    Inv w proxies (initState w proxies) where
  proxies_eq := rfl
  url_eq := rfl
  len_le := Nat.zero_le _
  len_eq := fun h => absurd rfl h
  task_ok := fun k t h => by simp [initState] at h
  lines := fun k => by simp [initState, linesOf, sentCount]
  w_nodup := by simp [initState]
  w_sound := fun m hm => by simp [initState] at hm
  w_complete := fun k t h => by simp [initState] at h
  w_room := by simp [initState]
  closer_spawn := by simp [initState]
  closed_done := fun h => by simp [initState, State.resultClosed] at h
  drain_working := fun h => by simp [initState] at h
  returned := fun h => by simp [initState] at h
  not_returned := fun _ => ⟨rfl, rfl⟩

theorem inv_stepCloser {w : World} {proxies : List GoString} {s s' : State}
    (hinv : Inv w proxies s) (h : stepCloser s = some s') : Inv w proxies s' := by
  rcases stepCloser_cases h with ⟨hc, hall, rfl⟩ | ⟨hc, rfl⟩
  · have hmain : s.main ≠ .spawning := fun hm => by
      have := hinv.closer_spawn.2 hm
      rw [hc] at this
      exact absurd this (by decide)
    have hncl : s.resultClosed = false := by simp [State.resultClosed, hc]
    exact
      { proxies_eq := hinv.proxies_eq
        url_eq := hinv.url_eq
        len_le := hinv.len_le
        len_eq := hinv.len_eq
        task_ok := hinv.task_ok
        lines := hinv.lines
        w_nodup := hinv.w_nodup
        w_sound := hinv.w_sound
        w_complete := hinv.w_complete
        w_room := hinv.w_room
        closer_spawn := ⟨fun h' => absurd h' (by simp), fun h' => absurd h' hmain⟩
        closed_done := fun _ => hall
        drain_working := fun hm => by
          have := (hinv.drain_working hm).1
          rw [hncl] at this
          exact absurd this (by decide)
        returned := fun hm => by
          have := (hinv.returned hm).1
          rw [hc] at this
          exact absurd this (by decide)
        not_returned := hinv.not_returned }
  · have hmain : s.main ≠ .spawning := fun hm => by
      have := hinv.closer_spawn.2 hm
      rw [hc] at this
      exact absurd this (by decide)
    have hcl : s.resultClosed = true := by simp [State.resultClosed, hc]
    exact
      { proxies_eq := hinv.proxies_eq
        url_eq := hinv.url_eq
        len_le := hinv.len_le
        len_eq := hinv.len_eq
        task_ok := hinv.task_ok
        lines := hinv.lines
        w_nodup := hinv.w_nodup
        w_sound := hinv.w_sound
        w_complete := hinv.w_complete
        w_room := hinv.w_room
        closer_spawn := ⟨fun h' => absurd h' (by simp), fun h' => absurd h' hmain⟩
        closed_done := fun _ => hinv.closed_done hcl
        drain_working := fun hm => ⟨by simp [State.resultClosed], (hinv.drain_working hm).2⟩
        returned := fun hm => by
          have := (hinv.returned hm).1
          rw [hc] at this
          exact absurd this (by decide)
        not_returned := hinv.not_returned }

theorem sentCount_spawn (tasks : List Task) (proxy : GoString) (j : Nat) :
    sentCount (tasks ++ [⟨proxy, 0, 0, .running⟩])[j]? = sentCount tasks[j]? := by
  rcases Nat.lt_trichotomy j tasks.length with hlt | heq | hgt
  · rw [List.getElem?_append_left hlt]
  · subst heq
    rw [List.getElem?_concat_length, List.getElem?_eq_none (Nat.le_refl _)]
    rfl
  · rw [List.getElem?_eq_none (by simp; omega), List.getElem?_eq_none (by omega)]

theorem getElem?_spawn {tasks : List Task} {new t : Task} {j : Nat}
    (h : (tasks ++ [new])[j]? = some t) :
    tasks[j]? = some t ∨ (j = tasks.length ∧ t = new) := by
  rcases Nat.lt_trichotomy j tasks.length with hlt | heq | hgt
  · rw [List.getElem?_append_left hlt] at h
    exact Or.inl h
  · subst heq
    rw [List.getElem?_concat_length] at h
    exact Or.inr ⟨rfl, (Option.some.inj h).symm⟩
  · rw [List.getElem?_eq_none (by simp; omega)] at h
    exact absurd h (by simp)

theorem getElem?_spawn_of_some {tasks : List Task} {new t : Task} {j : Nat}
    (h : tasks[j]? = some t) : (tasks ++ [new])[j]? = some t := by
  have hlt : j < tasks.length := by
    rcases List.getElem?_eq_some.1 h with ⟨hlt, _⟩
    exact hlt
  rw [List.getElem?_append_left hlt]
  exact h

theorem inv_stepMain {w : World} {proxies : List GoString} {s s' : State}
    (hinv : Inv w proxies s) (h : stepMain w s = some s') : Inv w proxies s' := by
  rcases stepMain_cases h with ⟨proxy, hm, hp, rfl⟩ | ⟨hm, hp, rfl⟩ | ⟨m, rest, hm, hc, rfl⟩ |
    ⟨hm, hc, hcl, rfl⟩ | ⟨m, rest, hm, hc, rfl⟩ | ⟨hm, hc, hcl, rfl⟩
  · -- a task is started
    have hlt : s.tasks.length < proxies.length := by
      rw [hinv.proxies_eq] at hp
      rcases List.getElem?_eq_some.1 hp with ⟨hlt, _⟩
      exact hlt
    have hcloser : s.closer = .notStarted := hinv.closer_spawn.2 hm
    exact
      { proxies_eq := hinv.proxies_eq
        url_eq := hinv.url_eq
        len_le := by simp only [List.length_append, List.length_singleton]; omega
        len_eq := fun h' => absurd hm h'
        task_ok := fun k t hk => by
          rcases getElem?_spawn hk with hk | ⟨rfl, rfl⟩
          · exact hinv.task_ok k t hk
          · rw [hinv.proxies_eq] at hp
            refine ⟨?_, by simp, rfl, fun h' => absurd rfl h', fun h' => absurd h' (by simp),
              fun h' => absurd h' (by simp)⟩
            simp [hp]
        lines := fun k => by
          simp only [sentCount_spawn]
          exact hinv.lines k
        w_nodup := hinv.w_nodup
        w_sound := fun m hmem => by
          obtain ⟨t, ht, h1, h2, h3⟩ := hinv.w_sound m hmem
          exact ⟨t, getElem?_spawn_of_some ht, h1, h2, h3⟩
        w_complete := fun k t hk hpc hsc => by
          rcases getElem?_spawn hk with hk | ⟨rfl, rfl⟩
          · exact hinv.w_complete k t hk hpc hsc
          · exact absurd rfl hpc
        w_room := by
          have := hinv.w_room
          simp only [List.map_append, List.sum_append, List.length_append, List.map_cons,
            List.map_nil, List.sum_cons, List.sum_nil, List.length_singleton, runningWeight,
            if_true] at this ⊢
          omega
        closer_spawn := hinv.closer_spawn
        closed_done := fun h' => by
          simp [State.resultClosed, hcloser] at h'
        drain_working := fun h' => by
          simp only at h'
          rw [hm] at h'
          exact absurd h' (by decide)
        returned := fun h' => by
          simp only at h'
          rw [hm] at h'
          exact absurd h' (by decide)
        not_returned := hinv.not_returned }
  · -- the closer is started
    have hlen : s.tasks.length = proxies.length := by
      rw [hinv.proxies_eq] at hp
      have := List.getElem?_eq_none_iff.1 hp
      have := hinv.len_le
      omega
    exact
      { proxies_eq := hinv.proxies_eq
        url_eq := hinv.url_eq
        len_le := hinv.len_le
        len_eq := fun _ => hlen
        task_ok := hinv.task_ok
        lines := hinv.lines
        w_nodup := hinv.w_nodup
        w_sound := hinv.w_sound
        w_complete := hinv.w_complete
        w_room := hinv.w_room
        closer_spawn := ⟨fun h' => absurd h' (by simp), fun h' => absurd h' (by simp)⟩
        closed_done := fun h' => by simp [State.resultClosed] at h'
        drain_working := fun h' => absurd h' (by simp)
        returned := fun h' => absurd h' (by simp)
        not_returned := fun _ => hinv.not_returned (by rw [hm]; decide) }
  · -- a line is received
    exact
      { proxies_eq := hinv.proxies_eq
        url_eq := hinv.url_eq
        len_le := hinv.len_le
        len_eq := hinv.len_eq
        task_ok := hinv.task_ok
        lines := fun k => by
          have := hinv.lines k
          rw [hc] at this
          simpa using this
        w_nodup := hinv.w_nodup
        w_sound := hinv.w_sound
        w_complete := hinv.w_complete
        w_room := hinv.w_room
        closer_spawn := hinv.closer_spawn
        closed_done := hinv.closed_done
        drain_working := fun h' => by
          simp only at h'
          rw [hm] at h'
          exact absurd h' (by decide)
        returned := fun h' => by
          simp only at h'
          rw [hm] at h'
          exact absurd h' (by decide)
        not_returned := hinv.not_returned }
  · -- the result stream is drained
    exact
      { proxies_eq := hinv.proxies_eq
        url_eq := hinv.url_eq
        len_le := hinv.len_le
        len_eq := fun _ => hinv.len_eq (by rw [hm]; decide)
        task_ok := hinv.task_ok
        lines := hinv.lines
        w_nodup := hinv.w_nodup
        w_sound := hinv.w_sound
        w_complete := hinv.w_complete
        w_room := hinv.w_room
        closer_spawn := ⟨fun h' => by
            have := hinv.closer_spawn.1 h'
            rw [hm] at this
            exact absurd this (by decide), fun h' => absurd h' (by simp)⟩
        closed_done := hinv.closed_done
        drain_working := fun _ => ⟨hcl, hc⟩
        returned := fun h' => absurd h' (by simp)
        not_returned := fun _ => hinv.not_returned (by rw [hm]; decide) }
  · -- a working proxy is received
    exact
      { proxies_eq := hinv.proxies_eq
        url_eq := hinv.url_eq
        len_le := hinv.len_le
        len_eq := hinv.len_eq
        task_ok := hinv.task_ok
        lines := hinv.lines
        w_nodup := by
          have := hinv.w_nodup
          rw [hc] at this
          simpa using this
        w_sound := fun m' hmem => by
          apply hinv.w_sound m'
          rw [hc]
          simpa using hmem
        w_complete := fun k t hk hpc hsc => by
          have := hinv.w_complete k t hk hpc hsc
          rw [hc] at this
          simpa using this
        w_room := by
          have := hinv.w_room
          rw [hc] at this
          simpa using this
        closer_spawn := hinv.closer_spawn
        closed_done := hinv.closed_done
        drain_working := hinv.drain_working
        returned := fun h' => by
          simp only at h'
          rw [hm] at h'
          exact absurd h' (by decide)
        not_returned := hinv.not_returned }
  · -- the summary is computed and the call returns
    have hex : s.closer = .exited := by simpa [State.workingClosed] using hcl
    exact
      { proxies_eq := hinv.proxies_eq
        url_eq := hinv.url_eq
        len_le := hinv.len_le
        len_eq := fun _ => hinv.len_eq (by rw [hm]; decide)
        task_ok := hinv.task_ok
        lines := hinv.lines
        w_nodup := hinv.w_nodup
        w_sound := hinv.w_sound
        w_complete := hinv.w_complete
        w_room := hinv.w_room
        closer_spawn := ⟨fun h' => by
            have h'' : s.closer = .notStarted := h'
            rw [hex] at h''
            exact absurd h'' (by decide), fun h' => absurd h' (by simp)⟩
        closed_done := hinv.closed_done
        drain_working := fun h' => absurd h' (by simp)
        returned := fun _ => ⟨hex, (hinv.drain_working hm).2, hc, by
          simp only [hinv.proxies_eq], rfl⟩
        not_returned := fun h' => absurd rfl h' }

theorem getElem?_set_of_some {l : List Task} {k : Nat} {t : Task} (t' : Task) (j : Nat)
    (h : l[k]? = some t) : (l.set k t')[j]? = if j = k then some t' else l[j]? := by
  have hlt : k < l.length := by
    rcases List.getElem?_eq_some.1 h with ⟨hlt, _⟩
    exact hlt
  by_cases hj : j = k
  · subst hj
    simp [hlt]
  · rw [if_neg hj, List.getElem?_set_ne (fun h' => hj h'.symm)]

theorem not_closed_of_unfinished {w : World} {proxies : List GoString} {s : State}
    (hinv : Inv w proxies s) {k : Nat} {t : Task} (ht : s.tasks[k]? = some t)
    (hpc : t.pc ≠ .finished) : s.resultClosed = false := by
  cases hcl : s.resultClosed with
  | false => rfl
  | true => exact absurd (hinv.closed_done hcl t (List.mem_iff_getElem?.2 ⟨k, ht⟩)) hpc

theorem inv_stepTask {w : World} {proxies : List GoString} {k : Nat} {s s' : State}
    (hinv : Inv w proxies s) (h : stepTask w k s = some s') : Inv w proxies s' := by
  obtain ⟨t, t', out, wout, ht, hmv, rfl⟩ := stepTask_cases h
  have hok := hinv.task_ok k t ht
  have hok' := taskMove_ok hinv.url_eq hok hmv
  obtain ⟨hlines, htag⟩ := taskMove_lines hinv.url_eq hok hmv
  obtain ⟨hunf, hfrozen, hquiet, hsend, hroom⟩ := taskMove_working hmv
  have hncl := not_closed_of_unfinished hinv ht hunf
  have hget := fun j => getElem?_set_of_some t' j ht
  have hfresh : wout ≠ [] → k ∉ (s.working ++ s.workingChan).map Prod.fst := by
    intro hw hk
    obtain ⟨m, hm, hmk⟩ := List.mem_map.1 hk
    obtain ⟨t0, ht0, hpc0, _, _⟩ := hinv.w_sound m hm
    rw [hmk, ht] at ht0
    have : t = t0 := Option.some.inj ht0
    subst this
    exact hpc0 (hsend hw).2.1
  exact
    { proxies_eq := hinv.proxies_eq
      url_eq := hinv.url_eq
      len_le := by simpa using hinv.len_le
      len_eq := fun h' => by simpa using hinv.len_eq h'
      task_ok := fun j tj hj => by
        simp only [hget] at hj
        by_cases hjk : j = k
        · subst hjk
          rw [if_pos rfl] at hj
          rw [← Option.some.inj hj]
          exact hok'
        · rw [if_neg hjk] at hj
          exact hinv.task_ok j tj hj
      lines := fun j => by
        simp only [hget]
        rw [← List.append_assoc, linesOf_append, hinv.lines j]
        by_cases hjk : j = k
        · subst hjk
          rw [if_pos rfl, linesOf_of_tag_eq _ _ htag, ht, hlines]
        · rw [if_neg hjk, linesOf_of_tag_ne _ _ _ htag hjk, List.append_nil]
      w_nodup := by
        simp only
        rw [← List.append_assoc, List.map_append]
        by_cases hw : wout = []
        · rw [hw]
          simpa using hinv.w_nodup
        · rw [(hsend hw).1]
          simp only [List.map_cons, List.map_nil]
          rw [List.nodup_append]
          refine ⟨hinv.w_nodup, List.nodup_singleton _, ?_⟩
          intro a ha hb
          rw [List.mem_singleton] at hb
          subst hb
          exact hfresh hw ha
      w_sound := fun m hm => by
        simp only [hget]
        rw [← List.append_assoc, List.mem_append] at hm
        rcases hm with hm | hm
        · obtain ⟨t0, ht0, hpc0, hsc0, hp0⟩ := hinv.w_sound m hm
          by_cases hmk : m.1 = k
          · rw [hmk, ht] at ht0
            have : t = t0 := Option.some.inj ht0
            subst this
            obtain ⟨_, hpc', hsc'⟩ := hfrozen hpc0
            exact ⟨t', by rw [if_pos hmk], hpc', by rw [hsc']; exact hsc0, hp0⟩
          · exact ⟨t0, by rw [if_neg hmk]; exact ht0, hpc0, hsc0, hp0⟩
        · have hw : wout ≠ [] := fun h' => by rw [h'] at hm; simp at hm
          obtain ⟨hwout, _, hpc', hsc'⟩ := hsend hw
          rw [hwout, List.mem_singleton] at hm
          subst hm
          exact ⟨t', by simp, hpc', hsc', hok.1⟩
      w_complete := fun j tj hj hpc hsc => by
        simp only [hget] at hj
        simp only
        rw [← List.append_assoc, List.map_append, List.mem_append]
        by_cases hjk : j = k
        · subst hjk
          rw [if_pos rfl] at hj
          have : t' = tj := Option.some.inj hj
          subst this
          by_cases hw : wout = []
          · obtain ⟨hpc0, hsc0⟩ := hquiet hw hpc hsc
            exact Or.inl (hinv.w_complete j t ht hpc0 hsc0)
          · rw [(hsend hw).1]
            exact Or.inr (by simp)
        · rw [if_neg hjk] at hj
          exact Or.inl (hinv.w_complete j tj hj hpc hsc)
      w_room := by
        have h1 := hinv.w_room
        have h2 := sum_map_set (f := runningWeight) s.tasks k t t' ht
        simp only [List.length_append, List.length_set] at h1 ⊢
        omega
      closer_spawn := hinv.closer_spawn
      closed_done := fun h' => by
        have h'' : s.resultClosed = true := h'
        rw [hncl] at h''
        exact absurd h'' (by decide)
      drain_working := fun h' => by
        have := (hinv.drain_working h').1
        rw [hncl] at this
        exact absurd this (by decide)
      returned := fun h' => by
        have := (hinv.returned h').1
        have hcl : s.resultClosed = true := by simp [State.resultClosed, this]
        rw [hncl] at hcl
        exact absurd hcl (by decide)
      not_returned := hinv.not_returned }

theorem inv_step {w : World} {proxies : List GoString} {a : Actor} {s s' : State}
    (hinv : Inv w proxies s) (h : step w a s = some s') : Inv w proxies s' := by
  cases a with
  | main => exact inv_stepMain hinv h
  | task k => exact inv_stepTask hinv h
  | closer => exact inv_stepCloser hinv h

theorem inv_exec {w : World} {proxies : List GoString} (sched : List Actor) {s s' : State}
    (hinv : Inv w proxies s) (h : exec w sched s = some s') : Inv w proxies s' := by
  induction sched generalizing s with
  | nil =>
    simp only [exec, Option.some.injEq] at h
    rw [← h]
    exact hinv
  | cons a sched ih =>
    simp only [exec] at h
    cases hs : step w a s with
    | none => simp [hs] at h
    | some s1 =>
      rw [hs] at h
      exact ih (inv_step hinv hs) h

/-! ## The coordinator: every run ends, and ends with a return -/

theorem measure_stepTask {w : World} {k : Nat} {s s' : State}
    (h : stepTask w k s = some s') : measure s' < measure s := by
  obtain ⟨t, t', out, wout, ht, hmv, rfl⟩ := stepTask_cases h
  have h1 := taskMove_rem hmv
  have h2 := sum_map_set (f := taskRem) s.tasks k t t' ht
  simp only [measure, List.length_append, List.length_set]
  omega

theorem measure_stepMain {w : World} {s s' : State}
    (h : stepMain w s = some s') : measure s' < measure s := by
  rcases stepMain_cases h with ⟨proxy, hm, hp, rfl⟩ | ⟨hm, hp, rfl⟩ | ⟨m, rest, hm, hc, rfl⟩ |
    ⟨hm, hc, hcl, rfl⟩ | ⟨m, rest, hm, hc, rfl⟩ | ⟨hm, hc, hcl, rfl⟩
  · have hlt : s.tasks.length < s.proxies.length := by
      rcases List.getElem?_eq_some.1 hp with ⟨hlt, _⟩
      exact hlt
    simp only [measure, List.map_append, List.sum_append, List.length_append, List.map_cons,
      List.map_nil, List.sum_cons, List.sum_nil, List.length_singleton, taskRem]
    omega
  · simp only [measure, hm, mainRem]
    cases s.closer <;> simp only [closerRem] <;> omega
  · simp only [measure, hc, List.length_cons]
    omega
  · simp only [measure, hm, mainRem]
    omega
  · simp only [measure, hc, List.length_cons]
    omega
  · simp only [measure, hm, mainRem]
    omega

theorem measure_stepCloser {s s' : State}
    (h : stepCloser s = some s') : measure s' < measure s := by
  rcases stepCloser_cases h with ⟨hc, _, rfl⟩ | ⟨hc, rfl⟩
  · simp only [measure, hc, closerRem]
    omega
  · simp only [measure, hc, closerRem]
    omega

theorem measure_step {w : World} {a : Actor} {s s' : State}
    (h : step w a s = some s') : measure s' < measure s := by
  cases a with
  | main => exact measure_stepMain h
  | task k => exact measure_stepTask h
  | closer => exact measure_stepCloser h

theorem measure_exec {w : World} (sched : List Actor) {s s' : State}
    (h : exec w sched s = some s') : sched.length + measure s' ≤ measure s := by
  induction sched generalizing s with
  | nil =>
    simp only [exec, Option.some.injEq] at h
    rw [← h]
    simp
  | cons a sched ih =>
    simp only [exec] at h
    cases hs : step w a s with
    | none => simp [hs] at h
    | some s1 =>
      rw [hs] at h
      have h1 := ih h
      have h2 := measure_step hs
      simp only [List.length_cons]
      omega

theorem le_sum_map_of_mem {f : Task → Nat} {l : List Task} {t : Task} (h : t ∈ l) :
    f t ≤ (l.map f).sum := by
  induction l with
  | nil => simp at h
  | cons a l ih =>
    simp only [List.map_cons, List.sum_cons]
    rcases List.mem_cons.1 h with rfl | h
    · omega
    · have := ih h
      omega

theorem stepTask_enabled {w : World} {proxies : List GoString} {s : State}
    (hinv : Inv w proxies s) {k : Nat} {t : Task} (ht : s.tasks[k]? = some t)
    (hpc : t.pc ≠ .finished) (hempty : s.resultChan = []) :
    ∃ s', stepTask w k s = some s' := by
  have hmem : t ∈ s.tasks := List.mem_iff_getElem?.2 ⟨k, ht⟩
  have hpos : 0 < s.tasks.length := List.length_pos_of_mem hmem
  have hlen := hinv.len_le
  have hcap : s.resultChan.length < s.resultCap := by
    rw [hempty, State.resultCap, hinv.proxies_eq]
    simp only [List.length_nil]
    omega
  unfold stepTask
  rw [ht]
  simp only
  cases hp : t.pc with
  | finished => exact absurd hp hpc
  | sentWorking =>
    simp only
    rw [if_pos hcap]
    exact ⟨_, rfl⟩
  | running =>
    simp only
    by_cases h1 : t.i < 3
    · rw [if_pos h1, if_pos hcap]
      exact ⟨_, rfl⟩
    · rw [if_neg h1]
      by_cases h3 : t.successCount = 3
      · have hw : s.workingChan.length < s.workingCap := by
          have h4 := hinv.w_room
          have h5 : runningWeight t ≤ (s.tasks.map runningWeight).sum := le_sum_map_of_mem hmem
          have h6 : runningWeight t = 1 := by simp [runningWeight, hp]
          simp only [List.length_append] at h4
          rw [State.workingCap, hinv.proxies_eq]
          omega
        rw [if_pos h3, if_pos hw]
        exact ⟨_, rfl⟩
      · rw [if_neg h3, if_pos hcap]
        exact ⟨_, rfl⟩

/-- As long as the call has not returned, some goroutine can move: the system
has no deadlock. -/
theorem step_enabled {w : World} {proxies : List GoString} {s : State}
    (hinv : Inv w proxies s) (hmain : s.main ≠ .returned) :
    ∃ a s', step w a s = some s' := by
  cases hm : s.main with
  | returned => exact absurd hm hmain
  | spawning =>
    refine ⟨.main, ?_⟩
    simp only [step, stepMain, hm]
    cases s.proxies[s.tasks.length]? <;> exact ⟨_, rfl⟩
  | drainResults =>
    cases hc : s.resultChan with
    | cons m rest =>
      refine ⟨.main, ?_⟩
      simp only [step, stepMain, hm, hc]
      exact ⟨_, rfl⟩
    | nil =>
      cases hcl : s.resultClosed with
      | true =>
        refine ⟨.main, ?_⟩
        simp only [step, stepMain, hm, hc, hcl, if_true]
        exact ⟨_, rfl⟩
      | false =>
        have hw : s.closer = .waiting := by
          have h1 : s.closer ≠ .notStarted := fun h' => by
            have := hinv.closer_spawn.1 h'
            rw [hm] at this
            exact absurd this (by decide)
          cases hcs : s.closer with
          | notStarted => exact absurd hcs h1
          | waiting => rfl
          | closedResults => simp [State.resultClosed, hcs] at hcl
          | exited => simp [State.resultClosed, hcs] at hcl
        by_cases hall : (s.tasks.all fun t => t.pc = .finished) = true
        · refine ⟨.closer, ?_⟩
          simp only [step, stepCloser, hw, hall, if_true]
          exact ⟨_, rfl⟩
        · have : ∃ t ∈ s.tasks, t.pc ≠ .finished := by
            by_contra hcon
            apply hall
            rw [List.all_eq_true]
            intro t ht
            simp only [decide_eq_true_eq]
            by_contra hne
            exact hcon ⟨t, ht, hne⟩
          obtain ⟨t, ht, hpc⟩ := this
          obtain ⟨k, hk⟩ := List.mem_iff_getElem?.1 ht
          obtain ⟨s', hs'⟩ := stepTask_enabled hinv hk hpc hc
          exact ⟨.task k, s', hs'⟩
  | drainWorking =>
    cases hc : s.workingChan with
    | cons m rest =>
      refine ⟨.main, ?_⟩
      simp only [step, stepMain, hm, hc]
      exact ⟨_, rfl⟩
    | nil =>
      have hcl := (hinv.drain_working hm).1
      cases hcs : s.closer with
      | notStarted => simp [State.resultClosed, hcs] at hcl
      | waiting => simp [State.resultClosed, hcs] at hcl
      | closedResults =>
        refine ⟨.closer, ?_⟩
        simp only [step, stepCloser, hcs]
        exact ⟨_, rfl⟩
      | exited =>
        refine ⟨.main, ?_⟩
        simp only [step, stepMain, hm, hc, State.workingClosed, hcs, decide_True, if_true]
        exact ⟨_, rfl⟩

/-- From every state of a run some schedule leads to the return. -/
theorem exists_return {w : World} {proxies : List GoString} (n : Nat) (s : State)
    (hn : measure s ≤ n) (hinv : Inv w proxies s) :
    ∃ sched s', exec w sched s = some s' ∧ s'.main = .returned := by
  induction n generalizing s with
  | zero =>
    by_cases hm : s.main = .returned
    · exact ⟨[], s, rfl, hm⟩
    · obtain ⟨a, s1, h1⟩ := step_enabled hinv hm
      have := measure_step h1
      omega
  | succ n ih =>
    by_cases hm : s.main = .returned
    · exact ⟨[], s, rfl, hm⟩
    · obtain ⟨a, s1, h1⟩ := step_enabled hinv hm
      have hlt := measure_step h1
      obtain ⟨sched, s', h2, h3⟩ := ih s1 (by omega) (inv_step hinv h1)
      refine ⟨a :: sched, s', ?_, h3⟩
      simp only [exec, h1]
      exact h2

/-! ## The coordinator: the state at the return -/

theorem successCount_eq_three_iff (w : World) (proxies : List GoString) (k : Nat) :
    successCount w proxies k = 3 ↔ ∀ i, i < 3 → (trial w proxies k i).success = true := by
  unfold successCount
  simp only [successesUpTo]
  constructor
  · intro h i hi
    have : i = 0 ∨ i = 1 ∨ i = 2 := by omega
    cases h0 : (trial w proxies k 0).success <;> cases h1 : (trial w proxies k 1).success <;>
      cases h2 : (trial w proxies k 2).success <;> simp [h0, h1, h2] at h
    rcases this with rfl | rfl | rfl
    · exact h0
    · exact h1
    · exact h2
  · intro h
    simp [h 0 (by omega), h 1 (by omega), h 2 (by omega)]

theorem successCount_le (w : World) (proxies : List GoString) (k : Nat) :
    successCount w proxies k ≤ 3 := by
  unfold successCount
  simp only [successesUpTo]
  split_ifs <;> omega

theorem range_map_getD (proxies : List GoString) :
    (List.range proxies.length).map (fun k => proxies.getD k []) = proxies := by
  apply List.ext_getElem
  · simp
  · intro n h1 h2
    simp [List.getElem?_eq_getElem h2]

theorem allPassed_sublist (w : World) (proxies : List GoString) :
    List.Sublist (allPassed w proxies) proxies := by
  have h := (List.filter_sublist (p := fun k => decide (successCount w proxies k = 3))
    (List.range proxies.length)).map (fun k => proxies.getD k [])
  rw [range_map_getD] at h
  exact h

theorem mem_allPassed (w : World) (proxies : List GoString) (p : GoString) :
    p ∈ allPassed w proxies ↔
      ∃ k, proxies[k]? = some p ∧ ∀ i, i < 3 → (trial w proxies k i).success = true := by
  unfold allPassed
  simp only [List.mem_map, List.mem_filter, List.mem_range, decide_eq_true_eq,
    successCount_eq_three_iff]
  constructor
  · rintro ⟨k, ⟨hk, hall⟩, rfl⟩
    exact ⟨k, by simp [List.getElem?_eq_getElem hk], hall⟩
  · rintro ⟨k, hk, hall⟩
    refine ⟨k, ⟨?_, hall⟩, ?_⟩
    · rcases List.getElem?_eq_some.1 hk with ⟨hlt, _⟩
      exact hlt
    · simp [hk]

/-- What the invariant says about a state in which the call has returned. -/
theorem inv_returned {w : World} {proxies : List GoString} {s : State}
    (hinv : Inv w proxies s) (hm : s.main = .returned) :
    s.tasks.length = proxies.length ∧
    (∀ k, k < proxies.length → linesOf k s.results = taskLines w proxies k) ∧
    (∀ k, proxies.length ≤ k → linesOf k s.results = []) ∧
    (s.working.map Prod.snd).Perm (allPassed w proxies) := by
  obtain ⟨hex, hrc, hwc, _, _⟩ := hinv.returned hm
  have hlen : s.tasks.length = proxies.length := hinv.len_eq (by rw [hm]; decide)
  have hcl : s.resultClosed = true := by simp [State.resultClosed, hex]
  have hfin := hinv.closed_done hcl
  have htask : ∀ k, k < proxies.length → ∃ t, s.tasks[k]? = some t ∧ t.pc = .finished ∧
      t.successCount = successCount w proxies k := by
    intro k hk
    have hk' : k < s.tasks.length := by omega
    refine ⟨s.tasks[k], List.getElem?_eq_getElem hk', hfin _ (List.getElem_mem _), ?_⟩
    obtain ⟨_, _, hsc, hnr, _, _⟩ := hinv.task_ok k _ (List.getElem?_eq_getElem hk')
    have hpc := hfin _ (List.getElem_mem (h := hk'))
    rw [hsc, hnr (by rw [hpc]; decide)]
    rfl
  refine ⟨hlen, ?_, ?_, ?_⟩
  · intro k hk
    obtain ⟨t, ht, hpc, _⟩ := htask k hk
    have h1 := hinv.lines k
    rw [hrc, List.append_nil, ht, (hinv.task_ok k t ht).2.2.2.2.2 hpc] at h1
    rw [h1]
    rfl
  · intro k hk
    have h1 := hinv.lines k
    rw [hrc, List.append_nil, List.getElem?_eq_none (by omega)] at h1
    rw [h1]
    rfl
  · have hnd := hinv.w_nodup
    have hsound := hinv.w_sound
    have hcomp := hinv.w_complete
    rw [hwc, List.append_nil] at hnd hsound hcomp
    have hperm : (s.working.map Prod.fst).Perm
        ((List.range proxies.length).filter (fun k => successCount w proxies k = 3)) := by
      rw [List.perm_ext_iff_of_nodup hnd ((List.nodup_range _).filter _)]
      intro k
      simp only [List.mem_filter, List.mem_range, decide_eq_true_eq]
      constructor
      · intro hk
        obtain ⟨m, hm', rfl⟩ := List.mem_map.1 hk
        obtain ⟨t, ht, _, hsc, _⟩ := hsound m hm'
        have hlt : m.1 < proxies.length := by
          rcases List.getElem?_eq_some.1 ht with ⟨hlt, _⟩
          omega
        obtain ⟨t', ht', _, hsc'⟩ := htask m.1 hlt
        rw [ht] at ht'
        rw [← Option.some.inj ht'] at hsc'
        exact ⟨hlt, by rw [← hsc']; exact hsc⟩
      · rintro ⟨hlt, hsc⟩
        obtain ⟨t, ht, hpc, hsc'⟩ := htask k hlt
        exact hcomp k t ht (by rw [hpc]; decide) (by rw [hsc']; exact hsc)
    have hsnd : s.working.map Prod.snd =
        (s.working.map Prod.fst).map (fun k => proxies.getD k []) := by
      rw [List.map_map]
      apply List.map_congr_left
      intro m hm'
      obtain ⟨_, _, _, _, h2⟩ := hsound m hm'
      exact h2
    rw [hsnd]
    exact hperm.map _

theorem length_eq_sum_linesOf (n : Nat) (l : List (Nat × GoString))
    (h : ∀ m ∈ l, m.1 < n) :
    l.length = ∑ k in Finset.range n, (linesOf k l).length := by
  induction l with
  | nil => simp [linesOf]
  | cons m l ih =>
    have hm : m.1 < n := h m (List.mem_cons_self _ _)
    have hl := ih (fun x hx => h x (List.mem_cons_of_mem _ hx))
    have hk : ∀ k, (linesOf k (m :: l)).length =
        (if k = m.1 then 1 else 0) + (linesOf k l).length := by
      intro k
      unfold linesOf
      by_cases hkm : m.1 = k
      · simp [List.filter_cons, hkm]
        omega
      · have : ¬ k = m.1 := fun h' => hkm h'.symm
        simp [List.filter_cons, hkm, this]
    simp only [hk, Finset.sum_add_distrib, ← hl, List.length_cons]
    rw [Finset.sum_ite_eq' (Finset.range n) m.1 (fun _ => 1)]
    simp [hm]
    omega

theorem testProxies_eq_some {w : World} {proxies : List GoString} {sched : List Actor}
    {r : RunResult} (hne : proxies ≠ []) (h : testProxies w proxies sched = some r) :
    ∃ s, exec w sched (initState w proxies) = some s ∧ s.main = .returned ∧
      r = { ret := some (s.working.map Prod.snd), stream := s.results, summary := s.summary,
            saved := s.saved, spawned := s.tasks.length, errorLine := none } := by
  unfold testProxies at h
  have hlen : ¬ proxies.length = 0 := fun h0 => hne (List.length_eq_zero.1 h0)
  rw [if_neg hlen] at h
  cases hs : exec w sched (initState w proxies) with
  | none => simp [hs] at h
  | some s =>
    simp only [hs] at h
    by_cases hm : s.main = .returned
    · rw [if_pos hm] at h
      exact ⟨s, rfl, hm, (Option.some.inj h).symm⟩
    · rw [if_neg hm] at h
      exact absurd h (by simp)

theorem testProxies_returns (w : World) (proxies : List GoString) (hne : proxies ≠ []) :
    ∃ sched r, testProxies w proxies sched = some r := by
  obtain ⟨sched, s, hs, hm⟩ :=
    exists_return (measure (initState w proxies)) (initState w proxies) (Nat.le_refl _)
      (inv_initState w proxies)
  have hlen : ¬ proxies.length = 0 := fun h0 => hne (List.length_eq_zero.1 h0)
  have hr : testProxies w proxies sched =
      some { ret := some (s.working.map Prod.snd), stream := s.results, summary := s.summary,
             saved := s.saved, spawned := s.tasks.length, errorLine := none } := by
    unfold testProxies
    rw [if_neg hlen]
    simp only [hs, hm, if_true]
  exact ⟨sched, _, hr⟩

/-! ## The claims on `testProxies` -/

/-- C1: on a non-empty list `testProxies` returns under some schedule of its
goroutines, and whenever it returns, the returned list is a permutation of the
sub-list of the input proxies whose three trials all succeeded. So a proxy is
in the returned list exactly when it stands at a position of the input whose
three trials returned success=true (equivalently, whose `successCount` is 3),
an entry with a failed trial contributes nothing, and every returned proxy is a
proxy of the input. -/
theorem testProxies_working (w : World) (proxies : List GoString) (hne : proxies ≠ []) :
    (∃ sched r, testProxies w proxies sched = some r) ∧
    ∀ sched r, testProxies w proxies sched = some r →
      ∃ working, r.ret = some working ∧
        working.Perm (allPassed w proxies) ∧
        List.Sublist (allPassed w proxies) proxies ∧
        (∀ p, p ∈ working ↔
          ∃ k, proxies[k]? = some p ∧ ∀ i, i < 3 → (trial w proxies k i).success = true) ∧
        (∀ k, successCount w proxies k = 3 ↔
          ∀ i, i < 3 → (trial w proxies k i).success = true) ∧
        (∀ p, p ∈ working → p ∈ proxies) := by
  refine ⟨testProxies_returns w proxies hne, ?_⟩
  intro sched r hr
  obtain ⟨s, hs, hm, rfl⟩ := testProxies_eq_some hne hr
  have hinv := inv_exec sched (inv_initState w proxies) hs
  obtain ⟨_, _, _, hperm⟩ := inv_returned hinv hm
  refine ⟨_, rfl, hperm, allPassed_sublist w proxies, ?_,
    successCount_eq_three_iff w proxies, ?_⟩
  · intro p
    rw [hperm.mem_iff]
    exact mem_allPassed w proxies p
  · intro p hp
    exact (allPassed_sublist w proxies).subset (hperm.subset hp)

theorem testProxies_working_witness :
    ["1.1.1.1:80".toList, "2.2.2.2:80".toList] ≠ [] ∧
    (testProxies demoWorld ["1.1.1.1:80".toList, "2.2.2.2:80".toList] demoSchedule).map
      (fun r => r.ret) = some (some ["1.1.1.1:80".toList]) ∧
    ∃ r working,
      testProxies demoWorld ["1.1.1.1:80".toList, "2.2.2.2:80".toList] demoSchedule = some r ∧
      r.ret = some working ∧
      working.Perm (allPassed demoWorld ["1.1.1.1:80".toList, "2.2.2.2:80".toList]) := by
  refine ⟨by decide, by decide, ?_⟩
  have hsome : (testProxies demoWorld ["1.1.1.1:80".toList, "2.2.2.2:80".toList]
      demoSchedule).isSome = true := by decide
  obtain ⟨r, hr⟩ := Option.isSome_iff_exists.1 hsome
  obtain ⟨working, h1, h2, _⟩ :=
    (testProxies_working demoWorld ["1.1.1.1:80".toList, "2.2.2.2:80".toList]
      (by decide)).2 demoSchedule r hr
  exact ⟨r, working, hr, h1, h2⟩

/-- C2: every run of `testProxies` on a non-empty list of N proxies has at most
11N + 8 moves and no state before the return is a deadlock (some goroutine can
always move, whatever the probes returned), and when the call returns, the lines of the result stream sent by
the task of the proxy at position `k` are, in stream order, exactly
`Test 1: <message 1>`, `Test 2: <message 2>`, `Test 3: <message 3>` and one
verdict line: the pass line when all three trials succeeded, else the fail
line with the number of successes, which is then at most 2. No line comes from
anywhere else, one task was started per proxy, and the stream has
3N + N lines for N proxies. -/
theorem testProxies_stream (w : World) (proxies : List GoString) (hne : proxies ≠ []) :
    (∀ sched s, exec w sched (initState w proxies) = some s →
      sched.length ≤ 11 * proxies.length + 8) ∧
    (∀ sched s, exec w sched (initState w proxies) = some s → s.main ≠ .returned →
      ∃ a s', step w a s = some s') ∧
    ∀ sched r, testProxies w proxies sched = some r →
      (∀ k, k < proxies.length →
        linesOf k r.stream =
          ["Test 1: ".toList ++ (trial w proxies k 0).message,
           "Test 2: ".toList ++ (trial w proxies k 1).message,
           "Test 3: ".toList ++ (trial w proxies k 2).message,
           verdictLine w proxies k]) ∧
      (∀ k, proxies.length ≤ k → linesOf k r.stream = []) ∧
      (∀ k,
        (successCount w proxies k = 3 ∧
          verdictLine w proxies k =
            w.greenString ("✓ ".toList ++ proxies.getD k [] ++ " passed all 3 tests".toList)) ∨
        (successCount w proxies k ≤ 2 ∧
          verdictLine w proxies k =
            w.redString ("✗ ".toList ++ proxies.getD k [] ++ " failed (".toList
              ++ fmtD (successCount w proxies k) ++ "/3 successful)".toList))) ∧
      r.spawned = proxies.length ∧
      r.stream.length = 3 * proxies.length + proxies.length := by
  refine ⟨?_,
    fun sched s hs hm => step_enabled (inv_exec sched (inv_initState w proxies) hs) hm, ?_⟩
  · intro sched s hs
    have h1 := measure_exec sched hs
    have h2 : measure (initState w proxies) = 11 * proxies.length + 8 := by
      simp only [measure, initState, mainRem, closerRem, List.map_nil, List.sum_nil,
        List.length_nil]
      omega
    omega
  intro sched r hr
  obtain ⟨s, hs, hm, rfl⟩ := testProxies_eq_some hne hr
  have hinv := inv_exec sched (inv_initState w proxies) hs
  obtain ⟨hlen, hlines, hnone, _⟩ := inv_returned hinv hm
  refine ⟨fun k hk => hlines k hk, hnone, ?_, hlen, ?_⟩
  · intro k
    by_cases h3 : successCount w proxies k = 3
    · left
      exact ⟨h3, by simp only [verdictLine, if_pos h3, passLine]⟩
    · right
      have := successCount_le w proxies k
      exact ⟨by omega, by simp only [verdictLine, if_neg h3, failLine]⟩
  · have htag : ∀ m ∈ s.results, m.1 < proxies.length := by
      intro m hmem
      by_contra hge
      have h0 := hnone m.1 (by omega)
      have : m.2 ∈ linesOf m.1 s.results := by
        unfold linesOf
        exact List.mem_map.2 ⟨m, List.mem_filter.2 ⟨hmem, by simp⟩, rfl⟩
      rw [h0] at this
      simp at this
    rw [length_eq_sum_linesOf proxies.length s.results htag]
    rw [Finset.sum_congr rfl (fun k hk => by
      rw [hlines k (Finset.mem_range.1 hk)]
      rfl : ∀ k ∈ Finset.range proxies.length, (linesOf k s.results).length = 4)]
    simp only [Finset.sum_const, Finset.card_range, smul_eq_mul]
    omega

theorem testProxies_stream_witness :
    ["1.1.1.1:80".toList, "2.2.2.2:80".toList] ≠ [] ∧
    (testProxies demoWorld ["1.1.1.1:80".toList, "2.2.2.2:80".toList] demoSchedule).map
      (fun r => linesOf 1 r.stream) =
      some ["Test 1: Error: 2.2.2.2:80 - Connection refused (3 ms)".toList,
            "Test 2: Error: 2.2.2.2:80 - Connection refused (3 ms)".toList,
            "Test 3: Error: 2.2.2.2:80 - Connection refused (3 ms)".toList,
            "✗ 2.2.2.2:80 failed (0/3 successful)".toList] ∧
    ∃ r, testProxies demoWorld ["1.1.1.1:80".toList, "2.2.2.2:80".toList] demoSchedule = some r ∧
      r.stream.length = 3 * 2 + 2 := by
  refine ⟨by decide, by decide, ?_⟩
  have hsome : (testProxies demoWorld ["1.1.1.1:80".toList, "2.2.2.2:80".toList]
      demoSchedule).isSome = true := by decide
  obtain ⟨r, hr⟩ := Option.isSome_iff_exists.1 hsome
  exact ⟨r, hr, ((testProxies_stream demoWorld ["1.1.1.1:80".toList, "2.2.2.2:80".toList]
    (by decide)).2.2 demoSchedule r hr).2.2.2.2⟩

/-! ## float64 rounding and the rate of the summary -/

theorem roundHalfEven_intCast (n : ℤ) : roundHalfEven (n : ℚ) = n := by
  unfold roundHalfEven
  rw [Int.floor_intCast]
  simp

theorem floor_le_roundHalfEven (x : ℚ) : Int.floor x ≤ roundHalfEven x := by
  unfold roundHalfEven
  split_ifs <;> omega

theorem roundHalfEven_eq_of_lt {x : ℚ} {m : ℤ} (h1 : (m : ℚ) ≤ x) (h2 : x - m < 1 / 2) :
    roundHalfEven x = m := by
  have hf : Int.floor x = m := by
    rw [Int.floor_eq_iff]
    constructor
    · exact h1
    · linarith
  unfold roundHalfEven
  rw [hf, if_pos h2]

theorem abs_roundHalfEven_sub_le (x : ℚ) : |(roundHalfEven x : ℚ) - x| ≤ 1 / 2 := by
  have h1 := Int.floor_le x
  have h2 := Int.lt_floor_add_one x
  unfold roundHalfEven
  rw [abs_le]
  split_ifs with ha hb hc
  · constructor <;> linarith
  · push_cast
    constructor <;> linarith
  · have : x - Int.floor x = 1 / 2 := le_antisymm (not_lt.1 hb) (not_lt.1 ha)
    constructor <;> linarith
  · have : x - Int.floor x = 1 / 2 := le_antisymm (not_lt.1 hb) (not_lt.1 ha)
    push_cast
    constructor <;> linarith

theorem f64Ulp_pos (q : ℚ) : 0 < f64Ulp q := by
  unfold f64Ulp
  positivity

theorem f64Ulp_le {q : ℚ} (hq : 0 < q) : f64Ulp q ≤ q * 2 ^ (-52 : ℤ) := by
  unfold f64Ulp
  have h := Int.zpow_log_le_self (b := 2) (r := q) (by norm_num) hq
  rw [sub_eq_add_neg, zpow_add₀ (by norm_num : (2 : ℚ) ≠ 0)]
  have h52 : (0 : ℚ) < 2 ^ (-52 : ℤ) := by positivity
  push_cast at h
  exact mul_le_mul_of_nonneg_right h h52.le

theorem intLog_eq {q : ℚ} {e : ℤ} (hq : 0 < q) (h1 : (2 : ℚ) ^ e ≤ q) (h2 : q < (2 : ℚ) ^ (e + 1)) :
    Int.log 2 q = e := by
  have a := (Int.zpow_le_iff_le_log (b := 2) (by norm_num) hq (x := e)).1 (by exact_mod_cast h1)
  have b := (Int.lt_zpow_iff_log_lt (b := 2) (by norm_num) hq (x := e + 1)).1
    (by exact_mod_cast h2)
  omega

theorem f64Round_pos {q : ℚ} (hq : 0 < q) : 0 < f64Round q := by
  unfold f64Round
  rw [if_neg hq.ne', if_pos hq]
  have hu := f64Ulp_pos q
  have hle : f64Ulp q ≤ q := by
    have := f64Ulp_le hq
    have h52 : (2 : ℚ) ^ (-52 : ℤ) ≤ 1 := by norm_num
    nlinarith
  have h1 : (1 : ℚ) ≤ q / f64Ulp q := by
    rw [le_div_iff₀ hu]
    linarith
  have h2 : (1 : ℤ) ≤ Int.floor (q / f64Ulp q) := Int.le_floor.2 (by exact_mod_cast h1)
  have h3 := floor_le_roundHalfEven (q / f64Ulp q)
  have h4 : (0 : ℚ) < (roundHalfEven (q / f64Ulp q) : ℚ) := by
    have : (0 : ℤ) < roundHalfEven (q / f64Ulp q) := by omega
    exact_mod_cast this
  positivity

theorem f64Round_zero : f64Round 0 = 0 := by
  unfold f64Round
  simp

theorem abs_f64Round_sub_le {q : ℚ} (hq : 0 ≤ q) : |f64Round q - q| ≤ q * 2 ^ (-53 : ℤ) := by
  rcases hq.eq_or_lt with h0 | hpos
  · rw [← h0, f64Round_zero]
    simp
  · unfold f64Round
    rw [if_neg hpos.ne', if_pos hpos]
    have hu := f64Ulp_pos q
    have hle := f64Ulp_le hpos
    have hr := abs_roundHalfEven_sub_le (q / f64Ulp q)
    have hxe : (roundHalfEven (q / f64Ulp q) : ℚ) * f64Ulp q - q =
        ((roundHalfEven (q / f64Ulp q) : ℚ) - q / f64Ulp q) * f64Ulp q := by
      field_simp
    rw [hxe, abs_mul, abs_of_pos hu]
    have h53 : (2 : ℚ) ^ (-53 : ℤ) = 2 ^ (-52 : ℤ) * (1 / 2) := by norm_num
    calc |(roundHalfEven (q / f64Ulp q) : ℚ) - q / f64Ulp q| * f64Ulp q
        ≤ 1 / 2 * f64Ulp q := mul_le_mul_of_nonneg_right hr hu.le
      _ ≤ 1 / 2 * (q * 2 ^ (-52 : ℤ)) := mul_le_mul_of_nonneg_left hle (by norm_num)
      _ = q * 2 ^ (-53 : ℤ) := by rw [h53]; ring

theorem f64Round_exact {q : ℚ} (hq : 0 < q) (n : ℤ) (h : q / f64Ulp q = n) : f64Round q = q := by
  unfold f64Round
  rw [if_neg hq.ne', if_pos hq, h, roundHalfEven_intCast, ← h]
  have hu := f64Ulp_pos q
  field_simp

theorem f64Round_one : f64Round 1 = 1 := by
  apply f64Round_exact (by norm_num) (2 ^ 52)
  rw [f64Ulp, Int.log_one_right]
  norm_num

theorem f64Round_hundred : f64Round 100 = 100 := by
  apply f64Round_exact (by norm_num) (100 * 2 ^ 46)
  rw [f64Ulp, intLog_eq (e := 6) (by norm_num) (by norm_num) (by norm_num)]
  norm_num

theorem f64OfInt_exact {n : ℕ} (hn : n < 2 ^ 53) : f64OfInt (n : ℤ) = n := by
  unfold f64OfInt
  rcases Nat.eq_zero_or_pos n with rfl | hpos
  · simp [f64Round_zero]
  · have hq : (0 : ℚ) < ((n : ℤ) : ℚ) := by exact_mod_cast hpos
    have hlog : Int.log 2 (((n : ℤ) : ℚ)) = (Nat.log 2 n : ℤ) := by
      rw [Int.cast_natCast, Int.log_natCast]
    have hle : Nat.log 2 n ≤ 52 := by
      have := Nat.log_lt_of_lt_pow (b := 2) hpos.ne' hn
      omega
    rw [f64Round_exact hq ((n : ℤ) * 2 ^ (52 - Nat.log 2 n))]
    · simp
    · rw [f64Ulp, hlog]
      have h2 : (2 : ℚ) ≠ 0 := by norm_num
      have : ((52 - Nat.log 2 n : ℕ) : ℤ) = 52 - (Nat.log 2 n : ℤ) := by omega
      rw [div_eq_mul_inv, ← zpow_neg]
      push_cast
      rw [← zpow_natCast, this]
      congr 2
      ring

theorem f64OfInt_pos {n : ℕ} (hn : 1 ≤ n) : 0 < f64OfInt (n : ℤ) := by
  unfold f64OfInt
  apply f64Round_pos
  exact_mod_cast hn

theorem successRateOf_all {t : ℕ} (ht : 1 ≤ t) : successRateOf t t = 100 := by
  unfold successRateOf f64Div f64Mul
  rw [div_self (f64OfInt_pos ht).ne', f64Round_one, one_mul, f64Round_hundred]

theorem successRateOf_none (t : ℕ) : successRateOf 0 t = 0 := by
  unfold successRateOf f64Div f64Mul f64OfInt
  simp [f64Round_zero]

theorem successRateOf_close {w t : ℕ} (ht : 1 ≤ t) (hlt : t < 2 ^ 53) (hwt : w ≤ t) :
    |successRateOf w t - 100 * (w : ℚ) / (t : ℚ)| ≤ 100 * (w : ℚ) / (t : ℚ) * 2 ^ (-51 : ℤ) := by
  unfold successRateOf f64Div f64Mul
  rw [f64OfInt_exact hlt, f64OfInt_exact (lt_of_le_of_lt hwt hlt)]
  have htq : (0 : ℚ) < t := by exact_mod_cast ht
  have hq : (0 : ℚ) ≤ (w : ℚ) / t := by positivity
  have h1 := abs_f64Round_sub_le hq
  have hx : 0 ≤ f64Round ((w : ℚ) / t) := by
    rcases hq.eq_or_lt with h0 | hpos
    · rw [← h0, f64Round_zero]
    · exact (f64Round_pos hpos).le
  have h2 := abs_f64Round_sub_le (mul_nonneg hx (by norm_num : (0 : ℚ) ≤ 100))
  rw [abs_le] at h1 h2 ⊢
  have e53 : (2 : ℚ) ^ (-53 : ℤ) = 1 / 9007199254740992 := by norm_num
  have e51 : (2 : ℚ) ^ (-51 : ℤ) = 1 / 2251799813685248 := by norm_num
  rw [e53] at h1 h2
  rw [e51]
  have hdiv : 100 * (w : ℚ) / t = 100 * ((w : ℚ) / t) := by ring
  rw [hdiv]
  constructor <;> nlinarith [h1.1, h1.2, h2.1, h2.2, hq, hx]

theorem successRateOf_23_160 : successRateOf 23 160 = 8092405580431359 / 2 ^ 49 := by
  unfold successRateOf f64Div f64Mul
  rw [f64OfInt_exact (by norm_num), f64OfInt_exact (by norm_num)]
  have h1 : f64Round ((23 : ℕ) / (160 : ℕ)) = 5179139571476070 / 2 ^ 55 := by
    unfold f64Round
    rw [if_neg (by norm_num), if_pos (by norm_num), f64Ulp,
      intLog_eq (e := -3) (by norm_num) (by norm_num) (by norm_num),
      roundHalfEven_eq_of_lt (m := 5179139571476070) (by norm_num) (by norm_num)]
    norm_num
  rw [h1]
  unfold f64Round
  rw [if_neg (by norm_num), if_pos (by norm_num), f64Ulp,
    intLog_eq (e := 3) (by norm_num) (by norm_num) (by norm_num),
    roundHalfEven_eq_of_lt (m := 8092405580431359) (by norm_num) (by norm_num)]
  norm_num

theorem f64Round_rate_exact : f64Round (100 * 23 / 160) = 100 * 23 / 160 := by
  apply f64Round_exact (by norm_num) (115 * 2 ^ 46)
  rw [f64Ulp, intLog_eq (e := 3) (by norm_num) (by norm_num) (by norm_num)]
  norm_num

theorem rateProxies_length : rateProxies.length = 160 := by
  simp [rateProxies]

theorem rateWorld_successCount (k : Nat) :
    successCount rateWorld rateProxies k = 3 ↔ k < 23 := by
  rw [successCount_eq_three_iff]
  have hs : ∀ i, (trial rateWorld rateProxies k i).success = decide (k < 23) := by
    intro i
    by_cases hk : k < 23
    · simp [trial, checkProxy, proxyURLFromString, rateWorld, demoWorld, hk]
    · simp [trial, checkProxy, proxyURLFromString, rateWorld, demoWorld, hk]
  constructor
  · intro h
    have := h 0 (by omega)
    rw [hs] at this
    simpa using this
  · intro hk i _
    rw [hs]
    simpa using hk

theorem rateWorld_allPassed_length : (allPassed rateWorld rateProxies).length = 23 := by
  unfold allPassed
  rw [List.length_map, rateProxies_length]
  have : (List.range 160).filter (fun k => decide (successCount rateWorld rateProxies k = 3)) =
      (List.range 160).filter (fun k => decide (k < 23)) := by
    apply List.filter_congr
    intro k _
    simp only [rateWorld_successCount]
  rw [this]
  decide

/-- C7, counterexample: in a run on 160 proxies of which 23 pass, the summary
rate the program computes is `8092405580431359 / 2 ^ 49`
(14.374999999999998...), not `100 * 23 / 160 = 14.375`, although 14.375 is a
`float64` value: the quotient 23/160 is rounded before it is multiplied by
100. -/
theorem summary_rate_rounded :
    ∃ sched r sm, testProxies rateWorld rateProxies sched = some r ∧
      r.summary = some sm ∧ sm.totalTested = 160 ∧ sm.totalWorking = 23 ∧
      sm.successRate = 8092405580431359 / 2 ^ 49 ∧
      sm.successRate ≠ 100 * (sm.totalWorking : ℚ) / (sm.totalTested : ℚ) ∧
      f64Round (100 * 23 / 160) = 100 * 23 / 160 := by
  have hne : rateProxies ≠ [] := by
    intro h
    have := rateProxies_length
    rw [h] at this
    simp at this
  obtain ⟨sched, r, hr⟩ := testProxies_returns rateWorld rateProxies hne
  obtain ⟨s, hs, hm, rfl⟩ := testProxies_eq_some hne hr
  have hinv := inv_exec sched (inv_initState rateWorld rateProxies) hs
  obtain ⟨_, _, _, hsum, _⟩ := hinv.returned hm
  obtain ⟨_, _, _, hperm⟩ := inv_returned hinv hm
  have hw : s.working.length = 23 := by
    have := hperm.length_eq
    rw [List.length_map, rateWorld_allPassed_length] at this
    exact this
  rw [hw, rateProxies_length, successRateOf_23_160] at hsum
  refine ⟨sched, _, _, hr, hsum, rfl, rfl, rfl, ?_, f64Round_rate_exact⟩
  norm_num

/-- C7, amended: for the empty list `testProxies` prints the error line and
returns `nil` at once: no task is started, no line is streamed, no summary is
computed and nothing is saved, under every schedule. In a run on a non-empty
list the summary does not exist before the return; when the call returns it
has been computed with `total = len(proxies) >= 1` and `working` the length of
the returned list, `working <= total`. The rate is the `float64` value of
`float64(working) / float64(total) * 100`: the divisor `float64(total)` is
positive, so the division is never by zero; the quotient is rounded and then
the product is rounded, so the rate is exactly 100 when all proxies work and
exactly 0 when none does, and for `total < 2 ^ 53` it differs from
`100 * working / total` by at most the factor `2 ^ -51` of that value. -/
theorem testProxies_summary (w : World) :
    (∀ sched, testProxies w [] sched =
      some { ret := none, stream := [], summary := none, saved := none, spawned := 0,
             errorLine := some (w.redString "Error: No proxies found.".toList) }) ∧
    (∀ proxies sched s, exec w sched (initState w proxies) = some s →
      s.main ≠ .returned → s.summary = none) ∧
    (∀ proxies sched r, testProxies w proxies sched = some r → ∀ sm, r.summary = some sm →
      1 ≤ sm.totalTested ∧ sm.totalTested = proxies.length ∧
      (∃ working, r.ret = some working ∧ sm.totalWorking = working.length) ∧
      sm.totalWorking ≤ sm.totalTested ∧
      0 < f64OfInt sm.totalTested ∧
      sm.successRate =
        f64Mul (f64Div (f64OfInt sm.totalWorking) (f64OfInt sm.totalTested)) 100 ∧
      (sm.totalWorking = sm.totalTested → sm.successRate = 100) ∧
      (sm.totalWorking = 0 → sm.successRate = 0) ∧
      (sm.totalTested < 2 ^ 53 →
        |sm.successRate - 100 * (sm.totalWorking : ℚ) / (sm.totalTested : ℚ)| ≤
          100 * (sm.totalWorking : ℚ) / (sm.totalTested : ℚ) * 2 ^ (-51 : ℤ))) ∧
    (∀ proxies sched r, proxies ≠ [] → testProxies w proxies sched = some r →
      r.summary ≠ none) := by
  refine ⟨fun sched => rfl, ?_, ?_, ?_⟩
  · intro proxies sched s hs hm
    exact ((inv_exec sched (inv_initState w proxies) hs).not_returned hm).1
  · intro proxies sched r hr sm hsm
    by_cases hne : proxies = []
    · subst hne
      have : r.summary = none := by
        have h0 : testProxies w [] sched = some _ := rfl
        rw [h0] at hr
        rw [← Option.some.inj hr]
      rw [this] at hsm
      exact absurd hsm (by simp)
    · obtain ⟨s, hs, hm, rfl⟩ := testProxies_eq_some hne hr
      have hinv := inv_exec sched (inv_initState w proxies) hs
      obtain ⟨_, _, _, hsum, _⟩ := hinv.returned hm
      obtain ⟨_, _, _, hperm⟩ := inv_returned hinv hm
      simp only at hsm
      rw [hsum] at hsm
      have hsm' := Option.some.inj hsm
      subst hsm'
      have hpos : 1 ≤ proxies.length := Nat.succ_le_of_lt (List.length_pos.2 hne)
      have hle : s.working.length ≤ proxies.length := by
        have h1 := hperm.length_eq
        have h2 := (allPassed_sublist w proxies).length_le
        rw [List.length_map] at h1
        omega
      refine ⟨hpos, rfl, ⟨_, rfl, by simp⟩, hle, f64OfInt_pos hpos, rfl, ?_, ?_, ?_⟩
      · intro heq
        simp only at heq ⊢
        rw [heq]
        exact successRateOf_all hpos
      · intro h0
        simp only at h0 ⊢
        rw [h0]
        exact successRateOf_none _
      · intro hlt
        exact successRateOf_close hpos hlt hle
  · intro proxies sched r hne hr
    obtain ⟨s, hs, hm, rfl⟩ := testProxies_eq_some hne hr
    have hinv := inv_exec sched (inv_initState w proxies) hs
    obtain ⟨_, _, _, hsum, _⟩ := hinv.returned hm
    simp only
    rw [hsum]
    simp

theorem testProxies_summary_witness :
    (testProxies demoWorld [] demoSchedule).map (fun r => (r.ret, r.spawned, r.summary)) =
      some (none, 0, none) ∧
    (testProxies demoWorld ["1.1.1.1:80".toList, "2.2.2.2:80".toList] demoSchedule).map
      (fun r => r.summary.map (fun sm => (sm.totalTested, sm.totalWorking))) =
      some (some (2, 1)) ∧
    ∃ r sm,
      testProxies demoWorld ["1.1.1.1:80".toList, "2.2.2.2:80".toList] demoSchedule = some r ∧
      r.summary = some sm ∧ 1 ≤ sm.totalTested ∧ 0 < f64OfInt sm.totalTested ∧
      sm.successRate =
        f64Mul (f64Div (f64OfInt sm.totalWorking) (f64OfInt sm.totalTested)) 100 := by
  refine ⟨by decide, by decide, ?_⟩
  have hsome : (testProxies demoWorld ["1.1.1.1:80".toList, "2.2.2.2:80".toList]
      demoSchedule).isSome = true := by decide
  obtain ⟨r, hr⟩ := Option.isSome_iff_exists.1 hsome
  have hsum := (testProxies_summary demoWorld).2.2.2 _ demoSchedule r (by decide) hr
  obtain ⟨sm, hsm⟩ := Option.ne_none_iff_exists'.1 hsum
  obtain ⟨h1, _, _, _, h5, h6, _⟩ :=
    (testProxies_summary demoWorld).2.2.1 _ demoSchedule r hr sm hsm
  exact ⟨r, sm, hr, hsm, h1, h5, h6⟩

/-! ## The claim on the proxy store -/

end ProxyChecker
